import Mathlib

/-!
Verification of the statistics-aggregation engine of `src/Dataset.py`
(repository `pedropaulofb/er2025data`).

Python dictionaries with string keys and integer count values are embedded
as association lists `List (String × Nat)` with distinct keys (insertion
order preserved, as in Python).  Stateful accumulation loops are embedded
as folds; `float` ratio arithmetic is embedded over `ℚ`; fallible code
returns `Except String` or `Option`.
-/

namespace ER2025

/-- A Python dict mapping stereotype labels to counts, as an assoc list
(insertion-ordered, keys distinct in well-formed data). -/
abbrev Dict := List (String × Nat)

/-- `d[k]` for a key known to be present (`0` stands for the impossible
missing-key case, which in Python would raise `KeyError`). -/
def dictGet (d : Dict) (k : String) : Nat :=
  ((d.find? (fun p => p.1 == k)).map Prod.snd).getD 0

/-- `sum(stereotypes.values())` — a model's total stereotype count
(`total_count` in `calculate_analysis2`, line 657 of Dataset.py). -/
def totalCount (d : Dict) : Nat :=
  (d.map Prod.snd).sum

/-- `sum(value for key, value in stereotypes.items() if key not in ["none", "other"])`
(`ontouml_count`, line 664 of Dataset.py). -/
def ontoumlCount (d : Dict) : Nat :=
  ((d.filter (fun p => !(p.1 == "none") && !(p.1 == "other"))).map Prod.snd).sum

/-- `stereotypes["none"]` (line 665 of Dataset.py). -/
def noneCount (d : Dict) : Nat := dictGet d "none"

/-- `stereotypes["other"]` (line 666 of Dataset.py). -/
def otherCount (d : Dict) : Nat := dictGet d "other"

/-- The §3 data-model invariant on a stereotype mapping: keys are distinct
(it is a dict) and the reserved labels `none` and `other` are present
(the source reads `stereotypes["none"]` / `stereotypes["other"]` directly). -/
def WFDict (d : Dict) : Prop :=
  (d.map Prod.fst).Nodup ∧ "none" ∈ d.map Prod.fst ∧ "other" ∈ d.map Prod.fst

instance : DecidablePred WFDict := fun d => by
  unfold WFDict; infer_instance

/-- Splitting a value sum by a predicate on entries. -/
theorem sum_filter_split (l : Dict) (p : String × Nat → Bool) :
    ((l.filter p).map Prod.snd).sum + ((l.filter (fun x => !(p x))).map Prod.snd).sum
      = (l.map Prod.snd).sum := by
  induction l with
  | nil => simp
  | cons a l ih =>
    cases hp : p a <;> simp [List.filter_cons, hp] <;> omega

/-- If `k` is absent from the keys, filtering for it yields nothing. -/
theorem filter_key_eq_nil (l : Dict) (k : String) (h : k ∉ l.map Prod.fst) :
    l.filter (fun p => p.1 == k) = [] := by
  induction l with
  | nil => rfl
  | cons a l ih =>
    simp only [List.map_cons, List.mem_cons, not_or] at h
    have ha : (a.1 == k) = false := by
      simp only [beq_eq_false_iff_ne, ne_eq]
      exact fun hc => h.1 hc.symm
    simp [List.filter_cons, ha, ih h.2]

/-- With distinct keys and `k` present, the sum of the values filtered at
key `k` is exactly the dict lookup. -/
theorem sum_filter_key (l : Dict) (k : String)
    (hnd : (l.map Prod.fst).Nodup) (hk : k ∈ l.map Prod.fst) :
    ((l.filter (fun p => p.1 == k)).map Prod.snd).sum = dictGet l k := by
  induction l with
  | nil => simp at hk
  | cons a l ih =>
    simp only [List.map_cons, List.nodup_cons] at hnd
    simp only [List.map_cons, List.mem_cons] at hk
    by_cases h : a.1 = k
    · have hnotin : k ∉ l.map Prod.fst := h ▸ hnd.1
      have hb : (a.1 == k) = true := beq_iff_eq.mpr h
      simp [List.filter_cons, hb, filter_key_eq_nil l k hnotin, dictGet, List.find?]
    · have hb : (a.1 == k) = false := by
        simp only [beq_eq_false_iff_ne, ne_eq]; exact h
      have hk' : k ∈ l.map Prod.fst := by
        rcases hk with h1 | h2
        · exact absurd h1.symm h
        · exact h2
      simp only [List.filter_cons, hb, Bool.false_eq_true, if_false]
      rw [ih hnd.2 hk']
      simp [dictGet, List.find?, hb]

/-- Splitting a value sum filtered by a disjunction of incompatible predicates. -/
theorem sum_filter_or (l : Dict) (p q : String × Nat → Bool)
    (hpq : ∀ x ∈ l, ¬(p x = true ∧ q x = true)) :
    ((l.filter (fun x => p x || q x)).map Prod.snd).sum
      = ((l.filter p).map Prod.snd).sum + ((l.filter q).map Prod.snd).sum := by
  induction l with
  | nil => simp
  | cons a l ih =>
    have h3 : ∀ x ∈ l, ¬(p x = true ∧ q x = true) :=
      fun x hx => hpq x (List.mem_cons_of_mem a hx)
    have ha := hpq a (List.mem_cons_self a l)
    cases hp : p a <;> cases hq : q a
    · simp only [List.filter_cons, hp, hq, Bool.or_self, Bool.false_eq_true, if_false]
      exact ih h3
    · simp [List.filter_cons, hp, hq, ih h3]
      omega
    · simp [List.filter_cons, hp, hq, ih h3]
      omega
    · exact absurd ⟨hp, hq⟩ ha

/-- Key decomposition: on a well-formed stereotype dict the total count is
the sum of the recognized-vocabulary, `none` and `other` counts. -/
theorem totalCount_eq (d : Dict) (h : WFDict d) :
    totalCount d = ontoumlCount d + noneCount d + otherCount d := by
  obtain ⟨hnd, hn, ho⟩ := h
  have hsplit := sum_filter_split d (fun p => !(p.1 == "none") && !(p.1 == "other"))
  have hne : "none" ≠ "other" := by decide
  have h2 : d.filter (fun x => !(!(x.1 == "none") && !(x.1 == "other")))
      = d.filter (fun x => (x.1 == "none") || (x.1 == "other")) := by
    apply List.filter_congr
    intro x _
    cases hx : (x.1 == "none") <;> cases hy : (x.1 == "other") <;> simp [hx, hy]
  have h3 : ∀ x ∈ d, ¬((x.1 == "none") = true ∧ (x.1 == "other") = true) := by
    intro x _ hc
    exact hne ((beq_iff_eq.mp hc.1).symm.trans (beq_iff_eq.mp hc.2))
  have hsplit2 := sum_filter_or d (fun x => x.1 == "none") (fun x => x.1 == "other") h3
  rw [h2, hsplit2] at hsplit
  rw [sum_filter_key d "none" hnd hn, sum_filter_key d "other" hnd ho] at hsplit
  unfold totalCount ontoumlCount noneCount otherCount
  omega

/-- The `ModelData` record as consumed by `Dataset` (§3 of the spec; the
class is external to Dataset.py, and only the fields Dataset.py reads are
embedded). -/
structure Model where
  name : String
  year : Int
  total_class_number : Nat
  total_relation_number : Nat
  class_stereotypes : Dict
  relation_stereotypes : Dict
  invalid_class_stereotypes : Dict
  invalid_relation_stereotypes : Dict
deriving DecidableEq

/-- Which stereotype mapping a calculation runs on (`stereotype_type`). -/
inductive SKind where
  | cls
  | rel
deriving DecidableEq

/-- `model.class_stereotypes if stereotype_type == "class" else model.relation_stereotypes`. -/
def stereo (m : Model) : SKind → Dict
  | .cls => m.class_stereotypes
  | .rel => m.relation_stereotypes

/-- The eight mutually exclusive categories of `calculate_analysis2`
(keys of the dict returned by `group_conditions`, lines 612-622). -/
inductive Cat where
  | ontouml_and_other_and_none
  | ontouml_and_other_and_not_none
  | ontouml_and_not_other_and_none
  | ontouml_and_not_other_and_not_none
  | not_ontouml_and_other_and_none
  | not_ontouml_and_other_and_not_none
  | not_ontouml_and_not_other_and_none
  | not_ontouml_and_not_other_and_not_none
deriving DecidableEq

/-- The eight category keys in source order. -/
def Cat.all : List Cat :=
  [.ontouml_and_other_and_none, .ontouml_and_other_and_not_none,
   .ontouml_and_not_other_and_none, .ontouml_and_not_other_and_not_none,
   .not_ontouml_and_other_and_none, .not_ontouml_and_other_and_not_none,
   .not_ontouml_and_not_other_and_none, .not_ontouml_and_not_other_and_not_none]

/-- `group_conditions(ontouml_count, none_count, other_count)` (lines 612-622
of Dataset.py): the boolean condition of each of the eight categories. -/
def group_conditions (ontouml_count none_count other_count : Nat) : Cat → Bool
  | .ontouml_and_other_and_none =>
      decide (ontouml_count > 0) && decide (other_count > 0) && decide (none_count > 0)
  | .ontouml_and_other_and_not_none =>
      decide (ontouml_count > 0) && decide (other_count > 0) && decide (none_count = 0)
  | .ontouml_and_not_other_and_none =>
      decide (ontouml_count > 0) && decide (other_count = 0) && decide (none_count > 0)
  | .ontouml_and_not_other_and_not_none =>
      decide (ontouml_count > 0) && decide (other_count = 0) && decide (none_count = 0)
  | .not_ontouml_and_other_and_none =>
      decide (ontouml_count = 0) && decide (other_count > 0) && decide (none_count > 0)
  | .not_ontouml_and_other_and_not_none =>
      decide (ontouml_count = 0) && decide (other_count > 0) && decide (none_count = 0)
  | .not_ontouml_and_not_other_and_none =>
      decide (ontouml_count = 0) && decide (other_count = 0) && decide (none_count > 0)
  | .not_ontouml_and_not_other_and_not_none =>
      decide (ontouml_count = 0) && decide (other_count = 0) && decide (none_count = 0)

/-- The unique category whose condition a given count triple satisfies. -/
def catOf (ontouml_count none_count other_count : Nat) : Cat :=
  if 0 < ontouml_count then
    if 0 < other_count then
      if 0 < none_count then .ontouml_and_other_and_none
      else .ontouml_and_other_and_not_none
    else
      if 0 < none_count then .ontouml_and_not_other_and_none
      else .ontouml_and_not_other_and_not_none
  else
    if 0 < other_count then
      if 0 < none_count then .not_ontouml_and_other_and_none
      else .not_ontouml_and_other_and_not_none
    else
      if 0 < none_count then .not_ontouml_and_not_other_and_none
      else .not_ontouml_and_not_other_and_not_none

/-- A category's condition holds exactly for the category `catOf` selects:
the eight `group_conditions` checks cover all `2 ^ 3` combinations and are
mutually exclusive. -/
theorem group_conditions_iff (o n ot : Nat) (c : Cat) :
    group_conditions o n ot c = true ↔ c = catOf o n ot := by
  rcases Nat.eq_zero_or_pos o with ho | ho <;>
    rcases Nat.eq_zero_or_pos n with hn | hn <;>
      rcases Nat.eq_zero_or_pos ot with hot | hot <;>
        cases c <;>
          simp [group_conditions, catOf, ho, hn, hot, Nat.pos_iff_ne_zero] <;>
            omega

/-- The per-model AF contribution to category `c` in `calculate_metrics`
(lines 650-672 of Dataset.py): zero-total models are skipped (`continue`);
otherwise the model adds `ontouml_count + none_count + other_count` to the
single category whose condition holds. -/
def afContrib (d : Dict) (c : Cat) : Nat :=
  if totalCount d = 0 then 0
  else if group_conditions (ontoumlCount d) (noneCount d) (otherCount d) c then
    ontoumlCount d + noneCount d + otherCount d
  else 0

/-- The per-model MC contribution to category `c` (lines 650-672). -/
def mcContrib (d : Dict) (c : Cat) : Nat :=
  if totalCount d = 0 then 0
  else if group_conditions (ontoumlCount d) (noneCount d) (otherCount d) c then 1
  else 0

/-- `metrics["af"][condition]` after the model loop of `calculate_metrics`. -/
def af (models : List Model) (k : SKind) (c : Cat) : Nat :=
  (models.map (fun m => afContrib (stereo m k) c)).sum

/-- `metrics["mc"][condition]` after the model loop of `calculate_metrics`. -/
def mc (models : List Model) (k : SKind) (c : Cat) : Nat :=
  (models.map (fun m => mcContrib (stereo m k) c)).sum

/-- `total_stereotypes` (lines 636-641 of Dataset.py). -/
def total_stereotypes (models : List Model) (k : SKind) : Nat :=
  (models.map (fun m => totalCount (stereo m k))).sum

/-- `total_models` (lines 642-646): for relations, models with zero relation
stereotypes are excluded; for classes every model counts. -/
def total_models (models : List Model) (k : SKind) : Nat :=
  match k with
  | .rel => (models.filter (fun m => decide (0 < totalCount (stereo m .rel)))).length
  | .cls => models.length

/-- `metrics["af"]["all_ontouml"]` (lines 675 and 688): sum of
`ontouml_count` over the models the loop does not skip. -/
def af_all_ontouml (models : List Model) (k : SKind) : Nat :=
  (models.map (fun m => if totalCount (stereo m k) = 0 then 0
    else ontoumlCount (stereo m k))).sum

/-- `metrics["af"]["all_none"]` (lines 676 and 689). -/
def af_all_none (models : List Model) (k : SKind) : Nat :=
  (models.map (fun m => if totalCount (stereo m k) = 0 then 0
    else noneCount (stereo m k))).sum

/-- `metrics["af"]["all_other"]` (lines 677 and 690). -/
def af_all_other (models : List Model) (k : SKind) : Nat :=
  (models.map (fun m => if totalCount (stereo m k) = 0 then 0
    else otherCount (stereo m k))).sum

/-- `metrics["mc"]["all_ontouml"]` (lines 692-696): number of models with a
positive recognized-vocabulary count, over every model unconditionally. -/
def mc_all_ontouml (models : List Model) (k : SKind) : Nat :=
  (models.filter (fun m => decide (0 < ontoumlCount (stereo m k)))).length

/-- `metrics["mc"]["all_none"]` (lines 697-698). -/
def mc_all_none (models : List Model) (k : SKind) : Nat :=
  (models.filter (fun m => decide (0 < noneCount (stereo m k)))).length

/-- `metrics["mc"]["all_other"]` (lines 699-700). -/
def mc_all_other (models : List Model) (k : SKind) : Nat :=
  (models.filter (fun m => decide (0 < otherCount (stereo m k)))).length

/-- `metrics["ratio_af"][condition]` (line 684): AF over total stereotypes,
with sentinel 0 on a zero denominator. -/
def ratio_af (models : List Model) (k : SKind) (c : Cat) : ℚ :=
  if 0 < total_stereotypes models k then
    (af models k c : ℚ) / (total_stereotypes models k : ℚ)
  else 0

/-- `metrics["ratio_mc"][condition]` (line 685). -/
def ratio_mc (models : List Model) (k : SKind) (c : Cat) : ℚ :=
  if 0 < total_models models k then
    (mc models k c : ℚ) / (total_models models k : ℚ)
  else 0

/-- `metrics["ratio_af"]["all_ontouml"]` (lines 703-704). -/
def ratio_af_all_ontouml (models : List Model) (k : SKind) : ℚ :=
  if 0 < total_stereotypes models k then
    (af_all_ontouml models k : ℚ) / (total_stereotypes models k : ℚ)
  else 0

/-- `metrics["ratio_af"]["all_none"]` (line 705). -/
def ratio_af_all_none (models : List Model) (k : SKind) : ℚ :=
  if 0 < total_stereotypes models k then
    (af_all_none models k : ℚ) / (total_stereotypes models k : ℚ)
  else 0

/-- `metrics["ratio_af"]["all_other"]` (lines 706-707). -/
def ratio_af_all_other (models : List Model) (k : SKind) : ℚ :=
  if 0 < total_stereotypes models k then
    (af_all_other models k : ℚ) / (total_stereotypes models k : ℚ)
  else 0

/-- `metrics["ratio_mc"]["all_ontouml"]` (line 709). -/
def ratio_mc_all_ontouml (models : List Model) (k : SKind) : ℚ :=
  if 0 < total_models models k then
    (mc_all_ontouml models k : ℚ) / (total_models models k : ℚ)
  else 0

/-- `metrics["ratio_mc"]["all_none"]` (line 710). -/
def ratio_mc_all_none (models : List Model) (k : SKind) : ℚ :=
  if 0 < total_models models k then
    (mc_all_none models k : ℚ) / (total_models models k : ℚ)
  else 0

/-- `metrics["ratio_mc"]["all_other"]` (line 711). -/
def ratio_mc_all_other (models : List Model) (k : SKind) : ℚ :=
  if 0 < total_models models k then
    (mc_all_other models k : ℚ) / (total_models models k : ℚ)
  else 0

theorem sum_map_add {α : Type} (l : List α) (f g : α → Nat) :
    (l.map (fun x => f x + g x)).sum = (l.map f).sum + (l.map g).sum := by
  induction l with
  | nil => rfl
  | cons a l ih => simp [ih]; omega

/-- The AF contribution of a model is an indicator of its `catOf` category. -/
theorem afContrib_eq (d : Dict) (h : WFDict d) (c : Cat) :
    afContrib d c = if totalCount d ≠ 0 ∧ c = catOf (ontoumlCount d) (noneCount d) (otherCount d)
      then totalCount d else 0 := by
  unfold afContrib
  by_cases h0 : totalCount d = 0
  · simp [h0]
  · by_cases hc : c = catOf (ontoumlCount d) (noneCount d) (otherCount d)
    · rw [if_neg h0, if_pos ((group_conditions_iff _ _ _ c).mpr hc), if_pos ⟨h0, hc⟩]
      exact (totalCount_eq d h).symm
    · rw [if_neg h0, if_neg, if_neg]
      · exact fun hand => hc hand.2
      · intro hgc
        exact hc ((group_conditions_iff _ _ _ c).mp hgc)

/-- The MC contribution of a model is a 0/1 indicator of its `catOf` category. -/
theorem mcContrib_eq (d : Dict) (c : Cat) :
    mcContrib d c = if totalCount d ≠ 0 ∧ c = catOf (ontoumlCount d) (noneCount d) (otherCount d)
      then 1 else 0 := by
  unfold mcContrib
  by_cases h0 : totalCount d = 0
  · simp [h0]
  · by_cases hc : c = catOf (ontoumlCount d) (noneCount d) (otherCount d)
    · rw [if_neg h0, if_pos ((group_conditions_iff _ _ _ c).mpr hc), if_pos ⟨h0, hc⟩]
    · rw [if_neg h0, if_neg, if_neg]
      · exact fun hand => hc hand.2
      · intro hgc
        exact hc ((group_conditions_iff _ _ _ c).mp hgc)

/-- Summed over the eight categories, a single model's AF contributions are
exactly its total stereotype count. -/
theorem sum_afContrib (d : Dict) (h : WFDict d) :
    (Cat.all.map (afContrib d)).sum = totalCount d := by
  by_cases h0 : totalCount d = 0
  · simp [Cat.all, afContrib, h0]
  · have he : ∀ c, afContrib d c
        = if c = catOf (ontoumlCount d) (noneCount d) (otherCount d) then totalCount d else 0 := by
      intro c
      rw [afContrib_eq d h c]
      by_cases hc : c = catOf (ontoumlCount d) (noneCount d) (otherCount d) <;> simp [hc, h0]
    cases hcat : catOf (ontoumlCount d) (noneCount d) (otherCount d) <;>
      simp [Cat.all, he, hcat]

/-- C1 helper: the eight-category AF sum equals the dataset-wide total
stereotype count, one model at a time. -/
theorem sum_af_eq (models : List Model) (k : SKind)
    (h : ∀ m ∈ models, WFDict (stereo m k)) :
    (Cat.all.map (af models k)).sum = (models.map (fun m => totalCount (stereo m k))).sum := by
  induction models with
  | nil => simp [af, Cat.all]
  | cons m ms ih =>
    have h1 : WFDict (stereo m k) := h m (List.mem_cons_self m ms)
    have h2 : ∀ m' ∈ ms, WFDict (stereo m' k) :=
      fun m' hm' => h m' (List.mem_cons_of_mem m hm')
    have hsplit : ∀ c, af (m :: ms) k c = afContrib (stereo m k) c + af ms k c := by
      intro c; simp [af]
    calc (Cat.all.map (af (m :: ms) k)).sum
        = (Cat.all.map (fun c => afContrib (stereo m k) c + af ms k c)).sum := by
          rw [funext hsplit]
      _ = (Cat.all.map (afContrib (stereo m k))).sum + (Cat.all.map (af ms k)).sum :=
          sum_map_add Cat.all _ _
      _ = totalCount (stereo m k) + (ms.map (fun m' => totalCount (stereo m' k))).sum := by
          rw [sum_afContrib _ h1, ih h2]
      _ = ((m :: ms).map (fun m' => totalCount (stereo m' k))).sum := by simp

/-- If a model has any stereotype at all, its category is never the
all-false one. -/
theorem catOf_ne_allfalse (o n ot : Nat) (h : o + n + ot ≠ 0) :
    catOf o n ot ≠ Cat.not_ontouml_and_not_other_and_not_none := by
  unfold catOf
  rcases Nat.eq_zero_or_pos o with ho | ho <;>
    rcases Nat.eq_zero_or_pos n with hn | hn <;>
      rcases Nat.eq_zero_or_pos ot with hot | hot <;>
        simp [ho, hn, hot, Nat.pos_iff_ne_zero] <;> omega

/-- A concrete model: recognized `kind` stereotypes plus one unlabeled class. -/
def wA : Model :=
  ⟨"A", 2015, 3, 0, [("kind", 2), ("none", 1), ("other", 0)],
   [("none", 0), ("other", 0)], [], []⟩

/-- A concrete model: only `other` class stereotypes. -/
def wB : Model :=
  ⟨"B", 2016, 3, 2, [("kind", 0), ("none", 0), ("other", 3)],
   [("none", 2), ("other", 0)], [], []⟩

/-- C1: after `calculate_analysis2`, for each stereotype kind and every list
of models, the sum of the eight mutually exclusive categories' AF values
(excluding the `all_*` keys) equals the sum over every model of that model's
total stereotype count of that kind. -/
theorem C1_af_eight_categories_sum (models : List Model) (k : SKind)
    (h : ∀ m ∈ models, WFDict (stereo m k)) :
    (Cat.all.map (af models k)).sum
      = (models.map (fun m => totalCount (stereo m k))).sum :=
  sum_af_eq models k h

theorem C1_witness :
    (∀ m ∈ [wA, wB], WFDict (stereo m SKind.cls)) ∧
    (Cat.all.map (af [wA, wB] SKind.cls)).sum
      = ([wA, wB].map (fun m => totalCount (stereo m SKind.cls))).sum :=
  ⟨by decide, C1_af_eight_categories_sum [wA, wB] SKind.cls (by decide)⟩

/-- C2: for every model and stereotype kind, `calculate_analysis2` places the
model in exactly one of the eight categories — MC contribution 1 and AF
contribution equal to its total count, to that one category and to no other —
if and only if its total stereotype count of that kind is at least 1; a model
with zero total contributes to none of the eight. -/
theorem C2_exactly_one_category (m : Model) (k : SKind) (h : WFDict (stereo m k)) :
    ((0 < totalCount (stereo m k)) ↔
      ∃ c : Cat, mcContrib (stereo m k) c = 1
        ∧ afContrib (stereo m k) c = totalCount (stereo m k)
        ∧ ∀ c2 : Cat, c2 ≠ c → mcContrib (stereo m k) c2 = 0 ∧ afContrib (stereo m k) c2 = 0)
    ∧ (totalCount (stereo m k) = 0 →
        ∀ c : Cat, mcContrib (stereo m k) c = 0 ∧ afContrib (stereo m k) c = 0) := by
  constructor
  · constructor
    · intro hpos
      have h0 : totalCount (stereo m k) ≠ 0 := Nat.pos_iff_ne_zero.mp hpos
      refine ⟨catOf (ontoumlCount (stereo m k)) (noneCount (stereo m k)) (otherCount (stereo m k)),
        ?_, ?_, ?_⟩
      · rw [mcContrib_eq]
        exact if_pos ⟨h0, rfl⟩
      · rw [afContrib_eq _ h]
        exact if_pos ⟨h0, rfl⟩
      · intro c2 hne
        constructor
        · rw [mcContrib_eq]
          exact if_neg (fun hand => hne hand.2)
        · rw [afContrib_eq _ h]
          exact if_neg (fun hand => hne hand.2)
    · rintro ⟨c, hmc, -, -⟩
      by_contra h0
      have hz : totalCount (stereo m k) = 0 := by omega
      rw [mcContrib_eq, if_neg (fun hand => hand.1 hz)] at hmc
      exact absurd hmc (by decide)
  · intro h0 c
    constructor
    · rw [mcContrib_eq]
      exact if_neg (fun hand => hand.1 h0)
    · rw [afContrib_eq _ h]
      exact if_neg (fun hand => hand.1 h0)

theorem C2_witness :
    WFDict (stereo wA SKind.cls) ∧
    (((0 < totalCount (stereo wA SKind.cls)) ↔
      ∃ c : Cat, mcContrib (stereo wA SKind.cls) c = 1
        ∧ afContrib (stereo wA SKind.cls) c = totalCount (stereo wA SKind.cls)
        ∧ ∀ c2 : Cat, c2 ≠ c →
            mcContrib (stereo wA SKind.cls) c2 = 0 ∧ afContrib (stereo wA SKind.cls) c2 = 0)
    ∧ (totalCount (stereo wA SKind.cls) = 0 →
        ∀ c : Cat, mcContrib (stereo wA SKind.cls) c = 0 ∧ afContrib (stereo wA SKind.cls) c = 0)) :=
  ⟨by decide, C2_exactly_one_category wA SKind.cls (by decide)⟩

/-- C10: after `calculate_analysis2`, for every list of models and both kinds,
the all-false category `not_ontouml_and_not_other_and_not_none` has AF 0 and
MC 0: a model with positive total necessarily has a positive recognized,
`none` or `other` count, and zero-total models are skipped. -/
theorem C10_allfalse_category_zero (models : List Model) (k : SKind)
    (h : ∀ m ∈ models, WFDict (stereo m k)) :
    af models k Cat.not_ontouml_and_not_other_and_not_none = 0
    ∧ mc models k Cat.not_ontouml_and_not_other_and_not_none = 0 := by
  constructor
  · apply List.sum_eq_zero
    intro x hx
    obtain ⟨m, hm, rfl⟩ := List.mem_map.mp hx
    rw [afContrib_eq _ (h m hm)]
    apply if_neg
    rintro ⟨h0, hcat⟩
    have hsum : ontoumlCount (stereo m k) + noneCount (stereo m k) + otherCount (stereo m k) ≠ 0 := by
      rw [← totalCount_eq _ (h m hm)]
      exact h0
    exact catOf_ne_allfalse _ _ _ hsum hcat.symm
  · apply List.sum_eq_zero
    intro x hx
    obtain ⟨m, hm, rfl⟩ := List.mem_map.mp hx
    rw [mcContrib_eq]
    apply if_neg
    rintro ⟨h0, hcat⟩
    have hsum : ontoumlCount (stereo m k) + noneCount (stereo m k) + otherCount (stereo m k) ≠ 0 := by
      rw [← totalCount_eq _ (h m hm)]
      exact h0
    exact catOf_ne_allfalse _ _ _ hsum hcat.symm

theorem C10_witness :
    (∀ m ∈ [wA, wB], WFDict (stereo m SKind.cls)) ∧
    af [wA, wB] SKind.cls Cat.not_ontouml_and_not_other_and_not_none = 0 ∧
    mc [wA, wB] SKind.cls Cat.not_ontouml_and_not_other_and_not_none = 0 :=
  ⟨by decide, C10_allfalse_category_zero [wA, wB] SKind.cls (by decide)⟩

/-- `math.isclose(a, b, rel_tol=1e-5)` (default `abs_tol=0`), over `ℚ`. -/
def isclose (a b : ℚ) : Bool :=
  decide (|a - b| ≤ (1 / 100000) * max |a| |b|)

/-- `expected_af` in `general_validation` (lines 791-794 of Dataset.py):
the sum of `total_class_number` / `total_relation_number` over the models. -/
def expected_af (models : List Model) (k : SKind) : Nat :=
  (models.map (fun m =>
    match k with
    | .cls => m.total_class_number
    | .rel => m.total_relation_number)).sum

/-- `expected_mc` in `general_validation` (lines 801-804). -/
def expected_mc (models : List Model) (k : SKind) : Nat :=
  match k with
  | .rel => (models.filter (fun m => decide (0 < totalCount (stereo m .rel)))).length
  | .cls => models.length

/-- `total_af` (line 795): AF summed over the eight non-`all_*` keys. -/
def total_af (models : List Model) (k : SKind) : Nat :=
  (Cat.all.map (af models k)).sum

/-- `total_mc` (line 805): MC summed over the eight non-`all_*` keys. -/
def total_mc (models : List Model) (k : SKind) : Nat :=
  (Cat.all.map (mc models k)).sum

/-- The chain of `assert` statements of `general_validation` for one
stereotype kind (lines 787-844 of Dataset.py), as a conjunction: the result
is `false` exactly when some assertion raises `AssertionError`. -/
def generalValidationCheck (models : List Model) (k : SKind) : Bool :=
  isclose (total_af models k) (expected_af models k)
  && decide (total_mc models k ≤ expected_mc models k)
  && Cat.all.all (fun c => isclose (ratio_af models k c)
      (if 0 < expected_af models k then (af models k c : ℚ) / (expected_af models k : ℚ) else 0))
  && Cat.all.all (fun c => isclose (ratio_mc models k c)
      (if 0 < expected_mc models k then (mc models k c : ℚ) / (expected_mc models k : ℚ) else 0))
  && isclose (total_af models k)
      ((af_all_ontouml models k : ℚ) + (af_all_none models k : ℚ) + (af_all_other models k : ℚ))
  && isclose
      (ratio_af_all_ontouml models k + ratio_af_all_none models k + ratio_af_all_other models k) 1

/-- `general_validation` (lines 778-846): validates class metrics, then
relation metrics; `false` means the pipeline halts with `AssertionError`. -/
def general_validation (models : List Model) : Bool :=
  generalValidationCheck models .cls && generalValidationCheck models .rel

/-- C9: for every dataset whose total stereotype count of some kind is zero
(including the empty model list), the three `all_*` `ratio_af` values are the
zero-denominator sentinel 0, their sum 0 fails the closeness-to-1 assertion,
and `general_validation` raises `AssertionError` instead of completing. -/
theorem C9_zero_total_validation_fails (models : List Model) (k : SKind)
    (h : total_stereotypes models k = 0) :
    ratio_af_all_ontouml models k = 0 ∧ ratio_af_all_none models k = 0
    ∧ ratio_af_all_other models k = 0 ∧ general_validation models = false := by
  have hro : ratio_af_all_ontouml models k = 0 := by
    unfold ratio_af_all_ontouml
    rw [h]
    simp
  have hrn : ratio_af_all_none models k = 0 := by
    unfold ratio_af_all_none
    rw [h]
    simp
  have hrot : ratio_af_all_other models k = 0 := by
    unfold ratio_af_all_other
    rw [h]
    simp
  refine ⟨hro, hrn, hrot, ?_⟩
  have hF : generalValidationCheck models k = false := by
    unfold generalValidationCheck
    have hlast : isclose
        (ratio_af_all_ontouml models k + ratio_af_all_none models k
          + ratio_af_all_other models k) 1 = false := by
      rw [hro, hrn, hrot]
      norm_num [isclose]
    rw [hlast, Bool.and_false]
  unfold general_validation
  cases k
  · rw [hF, Bool.false_and]
  · rw [hF, Bool.and_false]

theorem C9_witness :
    total_stereotypes [] SKind.cls = 0 ∧
    (ratio_af_all_ontouml [] SKind.cls = 0 ∧ ratio_af_all_none [] SKind.cls = 0
    ∧ ratio_af_all_other [] SKind.cls = 0 ∧ general_validation [] = false) :=
  ⟨rfl, C9_zero_total_validation_fails [] SKind.cls rfl⟩

/-- The invalid-stereotype tracker dict:
label ↦ (accumulated_frequency, model_coverage). -/
abbrev InvDict := List (String × Nat × Nat)

/-- The dict update performed for one `(stereotype, count)` item of a model
(lines 535-547 of Dataset.py): create the entry on first sight, then add the
count to `accumulated_frequency` and — unconditionally — 1 to
`model_coverage`.  Python dicts update in place and append new keys. -/
def updInv : InvDict → String × Nat → InvDict
  | [], p => [(p.1, p.2, 1)]
  | q :: rest, p =>
    if q.1 = p.1 then (q.1, q.2.1 + p.2, q.2.2 + 1) :: rest
    else q :: updInv rest p

/-- The scan over one invalid-stereotype mapping per model. -/
def invMetrics (items : List Dict) : InvDict :=
  items.foldl (fun acc d => d.foldl updInv acc) []

/-- `calculate_invalid_stereotypes_metrics` (lines 522-550):
(class metrics, relation metrics). -/
def calculate_invalid_stereotypes_metrics (models : List Model) : InvDict × InvDict :=
  (invMetrics (models.map (fun m => m.invalid_class_stereotypes)),
   invMetrics (models.map (fun m => m.invalid_relation_stereotypes)))

/-- Lookup of a label's entry in the tracker dict. -/
def invLookup (acc : InvDict) (label : String) : Option (Nat × Nat) :=
  (acc.find? (fun q => q.1 == label)).map Prod.snd

/-- The `accumulated_frequency` recorded for a label (0 if absent). -/
def invFreq (acc : InvDict) (label : String) : Nat :=
  ((invLookup acc label).map Prod.fst).getD 0

/-- The `model_coverage` recorded for a label (0 if absent). -/
def invCov (acc : InvDict) (label : String) : Nat :=
  ((invLookup acc label).map Prod.snd).getD 0

/-- Total count a single mapping reports for a label. -/
def keyFreq (d : Dict) (label : String) : Nat :=
  ((d.filter (fun p => p.1 == label)).map Prod.snd).sum

/-- Number of entries of a single mapping keyed by a label. -/
def keyCnt (d : Dict) (label : String) : Nat :=
  (d.filter (fun p => p.1 == label)).length

theorem invFreq_updInv (acc : InvDict) (p : String × Nat) (label : String) :
    invFreq (updInv acc p) label
      = invFreq acc label + (if p.1 = label then p.2 else 0) := by
  induction acc with
  | nil =>
    by_cases h : p.1 = label
    · simp [updInv, invFreq, invLookup, List.find?, beq_iff_eq.mpr h, h]
    · simp [updInv, invFreq, invLookup, List.find?, beq_eq_false_iff_ne.mpr h, h]
  | cons q rest ih =>
    by_cases hq : q.1 = p.1
    · by_cases hl : p.1 = label
      · have hb : (q.1 == label) = true := beq_iff_eq.mpr (hq.trans hl)
        simp [updInv, hq, invFreq, invLookup, List.find?, hb, hl]
      · have hb : (q.1 == label) = false :=
          beq_eq_false_iff_ne.mpr (fun hc => hl (hq ▸ hc))
        have hpb : (p.1 == label) = false := beq_eq_false_iff_ne.mpr hl
        simp [updInv, hq, invFreq, invLookup, List.find?, hb, hpb, hl]
    · by_cases hl : p.1 = label
      · have hb : (q.1 == label) = false :=
          beq_eq_false_iff_ne.mpr (fun hc => hq (hc.trans hl.symm))
        have := ih
        simp only [updInv, if_neg hq, invFreq, invLookup, List.find?, hb] at *
        exact this
      · by_cases hql : q.1 = label
        · have hb : (q.1 == label) = true := beq_iff_eq.mpr hql
          simp [updInv, hq, invFreq, invLookup, List.find?, hb, hl]
        · have hb : (q.1 == label) = false := beq_eq_false_iff_ne.mpr hql
          have := ih
          simp only [updInv, if_neg hq, invFreq, invLookup, List.find?, hb] at *
          exact this

theorem invCov_updInv (acc : InvDict) (p : String × Nat) (label : String) :
    invCov (updInv acc p) label
      = invCov acc label + (if p.1 = label then 1 else 0) := by
  induction acc with
  | nil =>
    by_cases h : p.1 = label
    · simp [updInv, invCov, invLookup, List.find?, beq_iff_eq.mpr h, h]
    · simp [updInv, invCov, invLookup, List.find?, beq_eq_false_iff_ne.mpr h, h]
  | cons q rest ih =>
    by_cases hq : q.1 = p.1
    · by_cases hl : p.1 = label
      · have hb : (q.1 == label) = true := beq_iff_eq.mpr (hq.trans hl)
        simp [updInv, hq, invCov, invLookup, List.find?, hb, hl]
      · have hb : (q.1 == label) = false :=
          beq_eq_false_iff_ne.mpr (fun hc => hl (hq ▸ hc))
        have hpb : (p.1 == label) = false := beq_eq_false_iff_ne.mpr hl
        simp [updInv, hq, invCov, invLookup, List.find?, hb, hpb, hl]
    · by_cases hl : p.1 = label
      · have hb : (q.1 == label) = false :=
          beq_eq_false_iff_ne.mpr (fun hc => hq (hc.trans hl.symm))
        have := ih
        simp only [updInv, if_neg hq, invCov, invLookup, List.find?, hb] at *
        exact this
      · by_cases hql : q.1 = label
        · have hb : (q.1 == label) = true := beq_iff_eq.mpr hql
          simp [updInv, hq, invCov, invLookup, List.find?, hb, hl]
        · have hb : (q.1 == label) = false := beq_eq_false_iff_ne.mpr hql
          have := ih
          simp only [updInv, if_neg hq, invCov, invLookup, List.find?, hb] at *
          exact this

theorem invLookup_updInv_ne_none (acc : InvDict) (p : String × Nat) (label : String) :
    invLookup (updInv acc p) label ≠ none
      ↔ (invLookup acc label ≠ none ∨ p.1 = label) := by
  induction acc with
  | nil =>
    by_cases h : p.1 = label
    · simp [updInv, invLookup, List.find?, beq_iff_eq.mpr h, h]
    · simp [updInv, invLookup, List.find?, beq_eq_false_iff_ne.mpr h, h]
  | cons q rest ih =>
    by_cases hq : q.1 = p.1
    · by_cases hl : p.1 = label
      · have hb : (q.1 == label) = true := beq_iff_eq.mpr (hq.trans hl)
        simp [updInv, hq, invLookup, List.find?, hb, hl]
      · have hb : (q.1 == label) = false :=
          beq_eq_false_iff_ne.mpr (fun hc => hl (hq ▸ hc))
        have hpb : (p.1 == label) = false := beq_eq_false_iff_ne.mpr hl
        simp [updInv, hq, invLookup, List.find?, hb, hpb, hl]
    · by_cases hl : p.1 = label
      · have hb : (q.1 == label) = false :=
          beq_eq_false_iff_ne.mpr (fun hc => hq (hc.trans hl.symm))
        have := ih
        simp only [updInv, if_neg hq, invLookup, List.find?, hb] at *
        simp [this, hl]
      · by_cases hql : q.1 = label
        · have hb : (q.1 == label) = true := beq_iff_eq.mpr hql
          simp [updInv, hq, invLookup, List.find?, hb]
        · have hb : (q.1 == label) = false := beq_eq_false_iff_ne.mpr hql
          have := ih
          simp only [updInv, if_neg hq, invLookup, List.find?, hb] at *
          exact this

theorem invFreq_fold (items : Dict) (acc : InvDict) (label : String) :
    invFreq (items.foldl updInv acc) label = invFreq acc label + keyFreq items label := by
  induction items generalizing acc with
  | nil => simp [keyFreq]
  | cons p rest ih =>
    rw [List.foldl_cons, ih, invFreq_updInv]
    by_cases h : p.1 = label
    · have hb : (p.1 == label) = true := beq_iff_eq.mpr h
      simp [keyFreq, List.filter_cons, hb, h]
      omega
    · have hb : (p.1 == label) = false := by
        simp only [beq_eq_false_iff_ne, ne_eq]
        exact h
      simp [keyFreq, List.filter_cons, hb, h]

theorem invCov_fold (items : Dict) (acc : InvDict) (label : String) :
    invCov (items.foldl updInv acc) label = invCov acc label + keyCnt items label := by
  induction items generalizing acc with
  | nil => simp [keyCnt]
  | cons p rest ih =>
    rw [List.foldl_cons, ih, invCov_updInv]
    by_cases h : p.1 = label
    · have hb : (p.1 == label) = true := beq_iff_eq.mpr h
      simp [keyCnt, List.filter_cons, hb, h]
      omega
    · have hb : (p.1 == label) = false := by
        simp only [beq_eq_false_iff_ne, ne_eq]
        exact h
      simp [keyCnt, List.filter_cons, hb, h]

theorem invLookup_fold_ne_none (items : Dict) (acc : InvDict) (label : String) :
    invLookup (items.foldl updInv acc) label ≠ none
      ↔ (invLookup acc label ≠ none ∨ label ∈ items.map Prod.fst) := by
  induction items generalizing acc with
  | nil => simp
  | cons p rest ih =>
    rw [List.foldl_cons, ih, invLookup_updInv_ne_none]
    rw [List.map_cons, List.mem_cons]
    constructor
    · rintro ((h | h) | h)
      · exact Or.inl h
      · exact Or.inr (Or.inl h.symm)
      · exact Or.inr (Or.inr h)
    · rintro (h | (h | h))
      · exact Or.inl (Or.inl h)
      · exact Or.inl (Or.inr h.symm)
      · exact Or.inr h

theorem invFreq_invMetrics (ds : List Dict) (label : String) :
    invFreq (invMetrics ds) label = (ds.map (fun d => keyFreq d label)).sum := by
  have key : ∀ acc, invFreq (ds.foldl (fun a d => d.foldl updInv a) acc) label
      = invFreq acc label + (ds.map (fun d => keyFreq d label)).sum := by
    induction ds with
    | nil => intro acc; simp
    | cons d rest ih =>
      intro acc
      rw [List.foldl_cons, ih, invFreq_fold]
      simp
      omega
  have h := key []
  simpa [invMetrics, invFreq, invLookup] using h

theorem invCov_invMetrics (ds : List Dict) (label : String) :
    invCov (invMetrics ds) label = (ds.map (fun d => keyCnt d label)).sum := by
  have key : ∀ acc, invCov (ds.foldl (fun a d => d.foldl updInv a) acc) label
      = invCov acc label + (ds.map (fun d => keyCnt d label)).sum := by
    induction ds with
    | nil => intro acc; simp
    | cons d rest ih =>
      intro acc
      rw [List.foldl_cons, ih, invCov_fold]
      simp
      omega
  have h := key []
  simpa [invMetrics, invCov, invLookup] using h

theorem invLookup_invMetrics_ne_none (ds : List Dict) (label : String) :
    invLookup (invMetrics ds) label ≠ none ↔ ∃ d ∈ ds, label ∈ d.map Prod.fst := by
  have key : ∀ acc, invLookup (ds.foldl (fun a d => d.foldl updInv a) acc) label ≠ none
      ↔ (invLookup acc label ≠ none ∨ ∃ d ∈ ds, label ∈ d.map Prod.fst) := by
    induction ds with
    | nil => intro acc; simp
    | cons d rest ih =>
      intro acc
      rw [List.foldl_cons, ih, invLookup_fold_ne_none]
      constructor
      · rintro ((h | h) | ⟨d', hd', hl⟩)
        · exact Or.inl h
        · exact Or.inr ⟨d, List.mem_cons_self d rest, h⟩
        · exact Or.inr ⟨d', List.mem_cons_of_mem d hd', hl⟩
      · rintro (h | ⟨d', hd', hl⟩)
        · exact Or.inl (Or.inl h)
        · rcases List.mem_cons.mp hd' with h1 | h2
          · exact Or.inl (Or.inr (h1 ▸ hl))
          · exact Or.inr ⟨d', h2, hl⟩
  have h := key []
  simpa [invMetrics, invLookup] using h

/-- Over a mapping with distinct keys, the number of entries keyed by a label
is the 0/1 indicator of the label being a key. -/
theorem keyCnt_nodup (d : Dict) (label : String) (h : (d.map Prod.fst).Nodup) :
    keyCnt d label = if label ∈ d.map Prod.fst then 1 else 0 := by
  induction d with
  | nil => simp [keyCnt]
  | cons p rest ih =>
    simp only [List.map_cons, List.nodup_cons] at h
    have hrest := ih h.2
    by_cases hp : p.1 = label
    · have hb : (p.1 == label) = true := beq_iff_eq.mpr hp
      have hnotin : label ∉ rest.map Prod.fst := hp ▸ h.1
      have hz : keyCnt rest label = 0 := by
        rw [hrest, if_neg hnotin]
      have hmem : label ∈ (p :: rest).map Prod.fst := by
        rw [List.map_cons, List.mem_cons]
        exact Or.inl hp.symm
      rw [if_pos hmem]
      unfold keyCnt at hz ⊢
      simp only [List.filter_cons, hb, if_true, List.length_cons]
      omega
    · have hb : (p.1 == label) = false := beq_eq_false_iff_ne.mpr hp
      have hiff : (label ∈ (p :: rest).map Prod.fst) ↔ label ∈ rest.map Prod.fst := by
        rw [List.map_cons, List.mem_cons]
        constructor
        · rintro (h1 | h2)
          · exact absurd h1.symm hp
          · exact h2
        · exact Or.inr
      have hstep : keyCnt (p :: rest) label = keyCnt rest label := by
        unfold keyCnt
        simp only [List.filter_cons, hb, Bool.false_eq_true, if_false]
      rw [hstep, hrest]
      by_cases hl : label ∈ rest.map Prod.fst
      · rw [if_pos hl, if_pos (hiff.mpr hl)]
      · rw [if_neg hl, if_neg (fun hc => hl (hiff.mp hc))]

theorem sum_indicator {α : Type} (l : List α) (p : α → Prop) [DecidablePred p] :
    (l.map (fun x => if p x then 1 else 0)).sum = (l.filter (fun x => decide (p x))).length := by
  induction l with
  | nil => rfl
  | cons a t ih =>
    by_cases hp : p a <;> simp [List.filter_cons, hp, ih] <;> omega

/-- A model reporting the invalid class stereotype `Foo` with count 3. -/
def cexA : Model :=
  ⟨"CA", 2015, 1, 0, [("none", 0), ("other", 0)], [("none", 0), ("other", 0)],
   [("Foo", 3)], []⟩

/-- A model reporting the invalid class stereotype `Foo` with count 0. -/
def cexB : Model :=
  ⟨"CB", 2016, 1, 0, [("none", 0), ("other", 0)], [("none", 0), ("other", 0)],
   [("Foo", 0)], []⟩

/-- C3 counterexample: two models reporting label `Foo` with counts 3 and 0
yield `accumulated_frequency = 3` but `model_coverage = 2`, not 1 — the loop
increments coverage unconditionally whenever the label key is present, so the
zero-count report does add coverage, contradicting the claim. -/
theorem C3_counterexample :
    invFreq ((calculate_invalid_stereotypes_metrics [cexA, cexB]).1) "Foo" = 3
    ∧ invCov ((calculate_invalid_stereotypes_metrics [cexA, cexB]).1) "Foo" = 2
    ∧ ¬ invCov ((calculate_invalid_stereotypes_metrics [cexA, cexB]).1) "Foo" = 1 := by
  refine ⟨rfl, rfl, ?_⟩
  intro h
  simp [calculate_invalid_stereotypes_metrics, invMetrics, cexA, cexB, updInv,
    invCov, invLookup, List.find?] at h

/-- C3 (amended): in `calculate_invalid_stereotypes_metrics`, for every
invalid stereotype label, `model_coverage` equals the number of distinct
models whose invalid mapping contains that label as a key — regardless of the
count's magnitude, including zero — and `accumulated_frequency` is the sum of
the reported counts across models.  (Both for class and relation mappings.) -/
theorem C3_coverage_counts_key_presence (models : List Model) (label : String)
    (hc : ∀ m ∈ models, ((m.invalid_class_stereotypes).map Prod.fst).Nodup)
    (hr : ∀ m ∈ models, ((m.invalid_relation_stereotypes).map Prod.fst).Nodup) :
    invCov ((calculate_invalid_stereotypes_metrics models).1) label
      = (models.filter (fun m =>
          decide (label ∈ (m.invalid_class_stereotypes).map Prod.fst))).length
    ∧ invFreq ((calculate_invalid_stereotypes_metrics models).1) label
      = (models.map (fun m => keyFreq m.invalid_class_stereotypes label)).sum
    ∧ invCov ((calculate_invalid_stereotypes_metrics models).2) label
      = (models.filter (fun m =>
          decide (label ∈ (m.invalid_relation_stereotypes).map Prod.fst))).length
    ∧ invFreq ((calculate_invalid_stereotypes_metrics models).2) label
      = (models.map (fun m => keyFreq m.invalid_relation_stereotypes label)).sum := by
  refine ⟨?_, ?_, ?_, ?_⟩
  · show invCov (invMetrics (models.map (fun m => m.invalid_class_stereotypes))) label = _
    rw [invCov_invMetrics, List.map_map]
    have hcong : models.map ((fun d => keyCnt d label) ∘ (fun m => m.invalid_class_stereotypes))
        = models.map (fun m =>
            if label ∈ (m.invalid_class_stereotypes).map Prod.fst then 1 else 0) := by
      apply List.map_congr_left
      intro m hm
      exact keyCnt_nodup _ label (hc m hm)
    rw [hcong, sum_indicator]
  · show invFreq (invMetrics (models.map (fun m => m.invalid_class_stereotypes))) label = _
    rw [invFreq_invMetrics, List.map_map]
    rfl
  · show invCov (invMetrics (models.map (fun m => m.invalid_relation_stereotypes))) label = _
    rw [invCov_invMetrics, List.map_map]
    have hcong : models.map ((fun d => keyCnt d label) ∘ (fun m => m.invalid_relation_stereotypes))
        = models.map (fun m =>
            if label ∈ (m.invalid_relation_stereotypes).map Prod.fst then 1 else 0) := by
      apply List.map_congr_left
      intro m hm
      exact keyCnt_nodup _ label (hr m hm)
    rw [hcong, sum_indicator]
  · show invFreq (invMetrics (models.map (fun m => m.invalid_relation_stereotypes))) label = _
    rw [invFreq_invMetrics, List.map_map]
    rfl

theorem C3_witness :
    (∀ m ∈ [cexA, cexB], ((m.invalid_class_stereotypes).map Prod.fst).Nodup)
    ∧ (∀ m ∈ [cexA, cexB], ((m.invalid_relation_stereotypes).map Prod.fst).Nodup)
    ∧ (invCov ((calculate_invalid_stereotypes_metrics [cexA, cexB]).1) "Foo"
      = ([cexA, cexB].filter (fun m =>
          decide ("Foo" ∈ (m.invalid_class_stereotypes).map Prod.fst))).length
    ∧ invFreq ((calculate_invalid_stereotypes_metrics [cexA, cexB]).1) "Foo"
      = ([cexA, cexB].map (fun m => keyFreq m.invalid_class_stereotypes "Foo")).sum
    ∧ invCov ((calculate_invalid_stereotypes_metrics [cexA, cexB]).2) "Foo"
      = ([cexA, cexB].filter (fun m =>
          decide ("Foo" ∈ (m.invalid_relation_stereotypes).map Prod.fst))).length
    ∧ invFreq ((calculate_invalid_stereotypes_metrics [cexA, cexB]).2) "Foo"
      = ([cexA, cexB].map (fun m => keyFreq m.invalid_relation_stereotypes "Foo")).sum) :=
  ⟨by decide, by decide,
   C3_coverage_counts_key_presence [cexA, cexB] "Foo" (by decide) (by decide)⟩

/-- C8 counterexample: a single model reporting label `Foo` with count 0
produces an output entry for `Foo` with `accumulated_frequency = 0` — a
zero-accumulated label is not omitted when some model carries the key. -/
theorem C8_counterexample :
    invFreq ((calculate_invalid_stereotypes_metrics [cexB]).1) "Foo" = 0
    ∧ invLookup ((calculate_invalid_stereotypes_metrics [cexB]).1) "Foo" ≠ none := by
  refine ⟨rfl, ?_⟩
  intro h
  simp [calculate_invalid_stereotypes_metrics, invMetrics, cexB, updInv,
    invLookup, List.find?] at h

/-- C8 (amended): a label has an entry in the output of
`calculate_invalid_stereotypes_metrics` if and only if at least one model's
invalid mapping contains that label as a key; labels no model carries are
omitted entirely, but a label reported only with count 0 does appear (with a
zero `accumulated_frequency`). -/
theorem C8_label_present_iff_reported (models : List Model) (label : String) :
    (invLookup ((calculate_invalid_stereotypes_metrics models).1) label ≠ none
      ↔ ∃ m ∈ models, label ∈ (m.invalid_class_stereotypes).map Prod.fst)
    ∧ (invLookup ((calculate_invalid_stereotypes_metrics models).2) label ≠ none
      ↔ ∃ m ∈ models, label ∈ (m.invalid_relation_stereotypes).map Prod.fst) := by
  constructor
  · show invLookup (invMetrics (models.map (fun m => m.invalid_class_stereotypes))) label ≠ none ↔ _
    rw [invLookup_invMetrics_ne_none]
    constructor
    · rintro ⟨d, hd, hl⟩
      obtain ⟨m, hm, rfl⟩ := List.mem_map.mp hd
      exact ⟨m, hm, hl⟩
    · rintro ⟨m, hm, hl⟩
      exact ⟨_, List.mem_map_of_mem _ hm, hl⟩
  · show invLookup (invMetrics (models.map (fun m => m.invalid_relation_stereotypes))) label ≠ none ↔ _
    rw [invLookup_invMetrics_ne_none]
    constructor
    · rintro ⟨d, hd, hl⟩
      obtain ⟨m, hm, rfl⟩ := List.mem_map.mp hd
      exact ⟨m, hm, hl⟩
    · rintro ⟨m, hm, hl⟩
      exact ⟨_, List.mem_map_of_mem _ hm, hl⟩

/-- A year-by-stereotype table of values, one row per year.  The raw tables
hold counts; normalization produces fractions, so cells live in `ℚ` (the
embedding of the source's floats). -/
abbrev QTable := List (List ℚ)

/-- `df.to_numpy().sum()` — the grand total of the table (line 374 of
Dataset.py). -/
def grandTotal (t : QTable) : ℚ := (t.map List.sum).sum

/-- `_normalize_stereotypes_overall` (lines 370-380): `df / total_sum`,
dividing every cell by the grand total. -/
def normalize_stereotypes_overall (t : QTable) : QTable :=
  t.map (fun r => r.map (fun x => x / grandTotal t))

/-- `_normalize_stereotypes_yearly` (lines 382-390):
`df.div(df.sum(axis=1), axis=0)`, dividing each row by its own sum. -/
def normalize_stereotypes_yearly (t : QTable) : QTable :=
  t.map (fun r => r.map (fun x => x / r.sum))

theorem sum_map_div (l : List ℚ) (c : ℚ) :
    (l.map (fun x => x / c)).sum = l.sum / c := by
  induction l with
  | nil => simp
  | cons a t ih => simp [ih, add_div]

/-- C5: for every raw table with non-negative cells and at least one positive
cell, the overall normalization divides every cell by the grand total, so the
sum of all cells of the resulting table is exactly 1. -/
theorem C5_overall_normalization_sums_to_one (t : QTable)
    (hpos : ∀ r ∈ t, ∀ x ∈ r, 0 ≤ x) (hnz : ∃ r ∈ t, ∃ x ∈ r, 0 < x) :
    grandTotal (normalize_stereotypes_overall t) = 1 := by
  have hrows : ∀ y ∈ t.map List.sum, 0 ≤ y := by
    intro y hy
    obtain ⟨r, hr, rfl⟩ := List.mem_map.mp hy
    exact List.sum_nonneg (hpos r hr)
  obtain ⟨r, hr, x, hx, hxpos⟩ := hnz
  have hrsum : 0 < r.sum := lt_of_lt_of_le hxpos (List.single_le_sum (hpos r hr) x hx)
  have hS : 0 < grandTotal t :=
    lt_of_lt_of_le hrsum (List.single_le_sum hrows r.sum (List.mem_map_of_mem List.sum hr))
  have hstep : grandTotal (normalize_stereotypes_overall t)
      = (t.map (fun r => r.sum / grandTotal t)).sum := by
    unfold grandTotal normalize_stereotypes_overall
    rw [List.map_map]
    congr 1
    apply List.map_congr_left
    intro r _
    exact sum_map_div r (grandTotal t)
  rw [hstep]
  have hstep2 : (t.map (fun r => r.sum / grandTotal t)).sum
      = grandTotal t / grandTotal t := by
    have h := sum_map_div (t.map List.sum) (grandTotal t)
    rw [List.map_map] at h
    simpa [Function.comp, grandTotal] using h
  rw [hstep2, div_self (ne_of_gt hS)]

theorem C5_witness :
    (∀ r ∈ ([[1, 2], [3, 0]] : QTable), ∀ x ∈ r, 0 ≤ x)
    ∧ (∃ r ∈ ([[1, 2], [3, 0]] : QTable), ∃ x ∈ r, 0 < x)
    ∧ grandTotal (normalize_stereotypes_overall [[1, 2], [3, 0]]) = 1 := by
  refine ⟨?_, ?_, ?_⟩
  · intro r hr x hx
    simp only [List.mem_cons, List.not_mem_nil, or_false] at hr
    rcases hr with rfl | rfl <;> simp_all [List.mem_cons] <;> rcases hx with rfl | rfl <;> norm_num
  · exact ⟨[1, 2], by simp, 1, by simp, by norm_num⟩
  · exact C5_overall_normalization_sums_to_one [[1, 2], [3, 0]]
      (by intro r hr x hx
          simp only [List.mem_cons, List.not_mem_nil, or_false] at hr
          rcases hr with rfl | rfl <;> simp_all [List.mem_cons] <;>
            rcases hx with rfl | rfl <;> norm_num)
      ⟨[1, 2], by simp, 1, by simp, by norm_num⟩

/-- C6: the yearly normalization divides each row by that row's sum, so every
row of the resulting table sums to 1 — except a row whose raw sum was 0,
which is left as an all-zero row (`ℚ` division by zero yields 0; the source's
floats produce the NaN variant of the same declared policy). -/
theorem C6_yearly_normalization_rows (t : QTable) (i : Nat)
    (hit : i < t.length) (hi : i < (normalize_stereotypes_yearly t).length) :
    ((t.get ⟨i, hit⟩).sum ≠ 0 → ((normalize_stereotypes_yearly t).get ⟨i, hi⟩).sum = 1)
    ∧ ((t.get ⟨i, hit⟩).sum = 0 →
        (normalize_stereotypes_yearly t).get ⟨i, hi⟩
          = List.replicate (t.get ⟨i, hit⟩).length 0) := by
  have hrow : (normalize_stereotypes_yearly t).get ⟨i, hi⟩
      = (t.get ⟨i, hit⟩).map (fun x => x / (t.get ⟨i, hit⟩).sum) := by
    unfold normalize_stereotypes_yearly
    exact List.get_map _
  constructor
  · intro hs
    rw [hrow, sum_map_div, div_self hs]
  · intro hs
    rw [hrow, hs]
    induction (t.get ⟨i, hit⟩) with
    | nil => simp
    | cons a r ih => simp_all [div_zero, List.replicate_succ]

theorem C6_witness :
    (0 : Nat) < ([[1, 3], [0, 0]] : QTable).length
    ∧ (0 : Nat) < (normalize_stereotypes_yearly [[1, 3], [0, 0]]).length
    ∧ ((([[1, 3], [0, 0]] : QTable).get ⟨0, by norm_num⟩).sum ≠ 0 →
        ((normalize_stereotypes_yearly [[1, 3], [0, 0]]).get ⟨0, by norm_num [normalize_stereotypes_yearly]⟩).sum = 1)
    ∧ ((([[1, 3], [0, 0]] : QTable).get ⟨0, by norm_num⟩).sum = 0 →
        (normalize_stereotypes_yearly [[1, 3], [0, 0]]).get
            ⟨0, by norm_num [normalize_stereotypes_yearly]⟩
          = List.replicate (([[1, 3], [0, 0]] : QTable).get ⟨0, by norm_num⟩).length 0) :=
  ⟨by norm_num, by norm_num [normalize_stereotypes_yearly],
   (C6_yearly_normalization_rows [[1, 3], [0, 0]] 0 (by norm_num)
      (by norm_num [normalize_stereotypes_yearly])).1,
   (C6_yearly_normalization_rows [[1, 3], [0, 0]] 0 (by norm_num)
      (by norm_num [normalize_stereotypes_yearly])).2⟩

/-- `[model.class_stereotypes[st] for st in stereotypes]` (lines 64 and 82 of
Dataset.py): a model's count row projected onto the vocabulary; `none` embeds
the `KeyError` raised on a missing vocabulary key. -/
def rowFor (vocab : List String) (d : Dict) : Option (List Nat) :=
  match vocab with
  | [] => some []
  | st :: rest =>
    match (d.find? (fun p => p.1 == st)).map Prod.snd with
    | none => none
    | some c =>
      match rowFor rest d with
      | none => none
      | some v => some (c :: v)

/-- `stereotypes = list(self.models[0].class_stereotypes.keys())` (lines 61
and 79): the vocabulary read off the first model; `[]` embeds the
`IndexError` on an empty dataset. -/
def vocabOf (models : List Model) (proj : Model → Dict) : List String :=
  match models with
  | [] => []
  | m :: _ => (proj m).map Prod.fst

/-- The stored `self.data_class` / `self.data_relation` table (lines 64-66
and 82-84): one `(model name, count row)` pair per model, in model order. -/
def buildTableAux (vocab : List String) (proj : Model → Dict) :
    List Model → Option (List (String × List Nat))
  | [] => some []
  | m :: rest =>
    match rowFor vocab (proj m) with
    | none => none
    | some v =>
      match buildTableAux vocab proj rest with
      | none => none
      | some t => some ((m.name, v) :: t)

/-- `save_dataset_class_data_csv` / `save_dataset_relation_data_csv` data
construction: vocabulary from the first model, one row per model. -/
def buildTable (models : List Model) (proj : Model → Dict) :
    Option (List (String × List Nat)) :=
  buildTableAux (vocabOf models proj) proj models

/-- The `yearly_data_*` dicts of `calculate_and_save_stereotypes_by_year`:
year ↦ accumulated row vector, in insertion order. -/
abbrev YDict := List (Int × List Nat)

/-- numpy vector addition `a += b` on equal-length integer vectors. -/
def addVec (a b : List Nat) : List Nat := List.zipWith (fun x y => x + y) a b

/-- `(model_data > 0).astype(int)` (line 284): the 0/1 presence indicator. -/
def indVec (v : List Nat) : List Nat := v.map (fun x => if 0 < x then 1 else 0)

/-- `model_year in yearly_data` (lines 269 and 272). -/
def ydHas (d : YDict) (y : Int) : Bool := d.any (fun e => e.1 == y)

/-- `yearly_data[model_year] = np.zeros(...)` when absent (lines 269-274):
Python dicts append new keys at the end. -/
def ydInit (d : YDict) (y : Int) (n : Nat) : YDict :=
  if ydHas d y then d else d ++ [(y, List.replicate n 0)]

/-- `yearly_data[model_year] += v` (lines 281 and 284): update in place. -/
def ydAdd (d : YDict) (y : Int) (v : List Nat) : YDict :=
  d.map (fun e => if e.1 == y then (e.1, addVec e.2 v) else e)

/-- `yearly_data[model_year]` lookup (`[]` for the impossible missing key). -/
def ydGet (d : YDict) (y : Int) : List Nat :=
  ((d.find? (fun e => e.1 == y)).map Prod.snd).getD []

/-- `content.loc[content['model'] == model.name].iloc[0, 1:]` (line 277):
the first stored row whose model column matches the name. -/
def fetchRow (content : List (String × List Nat)) (name : String) : Option (List Nat) :=
  (content.find? (fun r => r.1 == name)).map Prod.snd

/-- The model loop of `calculate_and_save_stereotypes_by_year` for one
analysis (lines 266-286 of Dataset.py): initialize the year rows, fetch the
model's row from the stored table, verify its width against the accumulated
row, then accumulate occurrence-wise and model-wise; a width mismatch raises
`ValueError("Mismatch in number of columns for model ...")`, a missing row
raises the pandas `IndexError`. -/
def stereoLoop (ncols : Nat) (content : List (String × List Nat)) :
    List Model → YDict → YDict → Except String (YDict × YDict)
  | [], ow, mw => .ok (ow, mw)
  | m :: rest, ow, mw =>
    let ow2 := ydInit ow m.year ncols
    let mw2 := ydInit mw m.year ncols
    match fetchRow content m.name with
    | none => .error "single positional indexer is out-of-bounds"
    | some v =>
      if v.length = (ydGet ow2 m.year).length then
        stereoLoop ncols content rest (ydAdd ow2 m.year v) (ydAdd mw2 m.year (indVec v))
      else
        .error ("Mismatch in number of columns for model " ++ m.name)

instance : IsTrans (Int × List Nat) (fun a b => a.1 ≤ b.1) :=
  ⟨fun _ _ _ h1 h2 => le_trans h1 h2⟩

instance : IsTotal (Int × List Nat) (fun a b => a.1 ≤ b.1) :=
  ⟨fun a b => le_total a.1 b.1⟩

/-- `df_yearly.sort_index(ascending=True)` (lines 298-299): rows sorted by
ascending year. -/
def sortByYear (d : YDict) : YDict :=
  d.insertionSort (fun a b => a.1 ≤ b.1)

/-- One analysis pass of `calculate_and_save_stereotypes_by_year` (lines
254-309): builds the data table, runs the accumulation loop from empty
dicts, and sorts both results by year. -/
def stereotypes_by_year (models : List Model) (proj : Model → Dict) :
    Except String (YDict × YDict) :=
  match buildTable models proj with
  | none => .error "KeyError"
  | some content =>
    match stereoLoop (vocabOf models proj).length content models [] [] with
    | .error e => .error e
    | .ok (ow, mw) => .ok (sortByYear ow, sortByYear mw)

/-- Modelled from the spec: the occurrence-weighted row of a year is the
direct sum of every contributing model's stereotype count vector (§4.3,
"accumulate into the ow vector by direct sum"). -/
def owYearSum (content : List (String × List Nat)) (ncols : Nat)
    (ms : List Model) (y : Int) : List Nat :=
  (ms.filter (fun m => m.year == y)).foldl
    (fun acc m => addVec acc ((fetchRow content m.name).getD []))
    (List.replicate ncols 0)

/-- Modelled from the spec: the model-weighted row of a year adds a 0/1
presence indicator per stereotype for each contributing model (§4.3). -/
def mwYearSum (content : List (String × List Nat)) (ncols : Nat)
    (ms : List Model) (y : Int) : List Nat :=
  (ms.filter (fun m => m.year == y)).foldl
    (fun acc m => addVec acc (indVec ((fetchRow content m.name).getD [])))
    (List.replicate ncols 0)

theorem rowFor_length (vocab : List String) (d : Dict) (v : List Nat)
    (h : rowFor vocab d = some v) : v.length = vocab.length := by
  induction vocab generalizing v with
  | nil =>
    unfold rowFor at h
    cases h
    rfl
  | cons st rest ih =>
    unfold rowFor at h
    cases hc : (d.find? (fun p => p.1 == st)).map Prod.snd with
    | none => rw [hc] at h; cases h
    | some c =>
      rw [hc] at h
      cases hr : rowFor rest d with
      | none => rw [hr] at h; cases h
      | some w =>
        rw [hr] at h
        cases h
        simp [ih w hr]

theorem buildTableAux_sizes (vocab : List String) (proj : Model → Dict)
    (ms : List Model) (content : List (String × List Nat))
    (h : buildTableAux vocab proj ms = some content) :
    ∀ e ∈ content, e.2.length = vocab.length := by
  induction ms generalizing content with
  | nil =>
    unfold buildTableAux at h
    cases h
    intro e he
    cases he
  | cons m rest ih =>
    unfold buildTableAux at h
    cases hr : rowFor vocab (proj m) with
    | none => rw [hr] at h; cases h
    | some v =>
      rw [hr] at h
      cases ht : buildTableAux vocab proj rest with
      | none => rw [ht] at h; cases h
      | some t =>
        rw [ht] at h
        cases h
        intro e he
        rcases List.mem_cons.mp he with rfl | hmem
        · exact rowFor_length vocab (proj m) v hr
        · exact ih t ht e hmem

theorem buildTableAux_names (vocab : List String) (proj : Model → Dict)
    (ms : List Model) (content : List (String × List Nat))
    (h : buildTableAux vocab proj ms = some content) :
    ∀ m ∈ ms, m.name ∈ content.map Prod.fst := by
  induction ms generalizing content with
  | nil =>
    intro m hm
    cases hm
  | cons m0 rest ih =>
    unfold buildTableAux at h
    cases hr : rowFor vocab (proj m0) with
    | none => rw [hr] at h; cases h
    | some v =>
      rw [hr] at h
      cases ht : buildTableAux vocab proj rest with
      | none => rw [ht] at h; cases h
      | some t =>
        rw [ht] at h
        cases h
        intro m hm
        rcases List.mem_cons.mp hm with rfl | hmem
        · exact List.mem_cons_self _ _
        · exact List.mem_cons_of_mem _ (ih t ht m hmem)

theorem fetchRow_some (content : List (String × List Nat)) (name : String)
    (h : name ∈ content.map Prod.fst) :
    ∃ v, fetchRow content name = some v ∧ v ∈ content.map Prod.snd := by
  obtain ⟨e, he, he1⟩ := List.mem_map.mp h
  cases hf : content.find? (fun r => r.1 == name) with
  | none =>
    exact absurd (beq_iff_eq.mpr he1) (List.find?_eq_none.mp hf e he)
  | some e' =>
    exact ⟨e'.2, by rw [fetchRow, hf]; rfl,
      List.mem_map_of_mem Prod.snd (List.mem_of_find?_eq_some hf)⟩

theorem ydHas_iff (d : YDict) (y : Int) :
    ydHas d y = true ↔ y ∈ d.map Prod.fst := by
  unfold ydHas
  rw [List.any_eq_true]
  constructor
  · rintro ⟨e, he, hb⟩
    exact List.mem_map.mpr ⟨e, he, beq_iff_eq.mp hb⟩
  · intro h
    obtain ⟨e, he, he1⟩ := List.mem_map.mp h
    exact ⟨e, he, beq_iff_eq.mpr he1⟩

theorem ydAdd_keys (d : YDict) (y : Int) (v : List Nat) :
    (ydAdd d y v).map Prod.fst = d.map Prod.fst := by
  unfold ydAdd
  rw [List.map_map]
  apply List.map_congr_left
  intro e _
  cases hb : (e.1 == y) <;> simp [Function.comp, hb]

theorem ydInit_keys (d : YDict) (y : Int) (n : Nat) :
    (ydInit d y n).map Prod.fst
      = if y ∈ d.map Prod.fst then d.map Prod.fst else d.map Prod.fst ++ [y] := by
  unfold ydInit
  by_cases h : ydHas d y = true
  · rw [if_pos h, if_pos ((ydHas_iff d y).mp h)]
  · rw [if_neg h, if_neg (fun hm => h ((ydHas_iff d y).mpr hm)), List.map_append]
    rfl

theorem ydInit_sizes (d : YDict) (y : Int) (n : Nat)
    (h : ∀ e ∈ d, e.2.length = n) :
    ∀ e ∈ ydInit d y n, e.2.length = n := by
  unfold ydInit
  by_cases hh : ydHas d y = true
  · rw [if_pos hh]
    exact h
  · rw [if_neg hh]
    intro e he
    rcases List.mem_append.mp he with hmem | hmem
    · exact h e hmem
    · rcases List.mem_singleton.mp hmem with rfl
      exact List.length_replicate n 0

theorem ydAdd_sizes (d : YDict) (y : Int) (v : List Nat) (n : Nat)
    (hv : v.length = n) (h : ∀ e ∈ d, e.2.length = n) :
    ∀ e ∈ ydAdd d y v, e.2.length = n := by
  intro e he
  obtain ⟨e0, he0, rfl⟩ := List.mem_map.mp he
  by_cases hb : (e0.1 == y) = true
  · simp only [hb, if_true]
    show (addVec e0.2 v).length = n
    unfold addVec
    rw [List.length_zipWith, h e0 he0, hv, Nat.min_self]
  · simp only [hb, Bool.false_eq_true, if_false]
    exact h e0 he0

theorem ydGet_length (d : YDict) (y : Int) (n : Nat)
    (h : ∀ e ∈ d, e.2.length = n) (hm : y ∈ d.map Prod.fst) :
    (ydGet d y).length = n := by
  obtain ⟨e, he, he1⟩ := List.mem_map.mp hm
  cases hf : d.find? (fun r => r.1 == y) with
  | none =>
    exact absurd (beq_iff_eq.mpr he1) (List.find?_eq_none.mp hf e he)
  | some e' =>
    have : ydGet d y = e'.2 := by rw [ydGet, hf]; rfl
    rw [this]
    exact h e' (List.mem_of_find?_eq_some hf)

theorem ydGet_ydAdd_ne (d : YDict) (y z : Int) (v : List Nat) (hz : z ≠ y) :
    ydGet (ydAdd d y v) z = ydGet d z := by
  induction d with
  | nil => rfl
  | cons e rest ih =>
    cases hez : (e.1 == z) with
    | true =>
      have hey : (e.1 == y) = false :=
        beq_eq_false_iff_ne.mpr (fun hc => hz ((beq_iff_eq.mp hez) ▸ hc ▸ rfl))
      simp [ydAdd, ydGet, List.find?, hey, hez]
    | false =>
      cases hey : (e.1 == y) with
      | true =>
        simp only [ydAdd, List.map_cons, hey, if_true, ydGet, List.find?, hez]
        have := ih
        simp only [ydAdd, ydGet] at this
        exact this
      | false =>
        simp only [ydAdd, List.map_cons, hey, Bool.false_eq_true, if_false, ydGet,
          List.find?, hez]
        have := ih
        simp only [ydAdd, ydGet] at this
        exact this

theorem ydGet_ydAdd_self (d : YDict) (y : Int) (v : List Nat)
    (hm : y ∈ d.map Prod.fst) :
    ydGet (ydAdd d y v) y = addVec (ydGet d y) v := by
  induction d with
  | nil => cases hm
  | cons e rest ih =>
    cases hey : (e.1 == y) with
    | true => simp [ydAdd, ydGet, List.find?, hey]
    | false =>
      have hm' : y ∈ rest.map Prod.fst := by
        rw [List.map_cons] at hm
        rcases List.mem_cons.mp hm with h1 | h2
        · exact absurd (beq_iff_eq.mpr h1.symm) (by rw [hey]; exact Bool.false_ne_true)
        · exact h2
      simp only [ydAdd, List.map_cons, hey, Bool.false_eq_true, if_false, ydGet, List.find?]
      have := ih hm'
      simp only [ydAdd, ydGet] at this
      exact this

theorem ydGet_append_single_ne (d : YDict) (y z : Int) (w : List Nat) (hz : z ≠ y) :
    ydGet (d ++ [(y, w)]) z = ydGet d z := by
  induction d with
  | nil =>
    have h0 : (y == z) = false := beq_eq_false_iff_ne.mpr (fun hc => hz hc.symm)
    simp [ydGet, List.find?, h0]
  | cons e rest ih =>
    cases hez : (e.1 == z) with
    | true => simp [ydGet, List.find?, hez]
    | false =>
      simp only [ydGet, List.cons_append, List.find?, hez] at ih ⊢
      exact ih

theorem ydGet_append_single_self (d : YDict) (y : Int) (w : List Nat) :
    y ∉ d.map Prod.fst → ydGet (d ++ [(y, w)]) y = w := by
  induction d with
  | nil =>
    intro _
    simp [ydGet, List.find?]
  | cons e rest ih =>
    intro h
    rw [List.map_cons] at h
    have h1 : y ≠ e.1 := fun hc => h (hc ▸ List.mem_cons_self _ _)
    have h2 : y ∉ rest.map Prod.fst := fun hc => h (List.mem_cons_of_mem _ hc)
    have hey : (e.1 == y) = false := beq_eq_false_iff_ne.mpr (fun hc => h1 hc.symm)
    simp only [List.cons_append, ydGet, List.find?, hey]
    have := ih h2
    simp only [ydGet] at this
    exact this

theorem ydGet_ydInit_self (d : YDict) (y : Int) (n : Nat) :
    ydGet (ydInit d y n) y
      = if y ∈ d.map Prod.fst then ydGet d y else List.replicate n 0 := by
  unfold ydInit
  by_cases hh : ydHas d y = true
  · rw [if_pos hh, if_pos ((ydHas_iff d y).mp hh)]
  · have hnm : y ∉ d.map Prod.fst := fun hm => hh ((ydHas_iff d y).mpr hm)
    rw [if_neg hh, if_neg hnm]
    exact ydGet_append_single_self d y _ hnm

theorem ydGet_ydInit_ne (d : YDict) (y z : Int) (n : Nat) (hz : z ≠ y) :
    ydGet (ydInit d y n) z = ydGet d z := by
  unfold ydInit
  by_cases hh : ydHas d y = true
  · rw [if_pos hh]
  · rw [if_neg hh]
    exact ydGet_append_single_ne d y z _ hz

theorem ydInit_nodup (d : YDict) (y : Int) (n : Nat)
    (h : (d.map Prod.fst).Nodup) : ((ydInit d y n).map Prod.fst).Nodup := by
  rw [ydInit_keys]
  by_cases hm : y ∈ d.map Prod.fst
  · rw [if_pos hm]
    exact h
  · rw [if_neg hm]
    rw [List.nodup_append]
    exact ⟨h, List.nodup_singleton y, fun a ha hay => hm ((List.mem_singleton.mp hay) ▸ ha)⟩

theorem ydAdd_nodup (d : YDict) (y : Int) (v : List Nat)
    (h : (d.map Prod.fst).Nodup) : ((ydAdd d y v).map Prod.fst).Nodup := by
  rw [ydAdd_keys]
  exact h

theorem mem_entry_ydGet (d : YDict) (e : Int × List Nat)
    (hnd : (d.map Prod.fst).Nodup) (he : e ∈ d) : ydGet d e.1 = e.2 := by
  induction d with
  | nil => cases he
  | cons f rest ih =>
    simp only [List.map_cons, List.nodup_cons] at hnd
    rcases List.mem_cons.mp he with rfl | hmem
    · simp [ydGet, List.find?]
    · have hne : (f.1 == e.1) = false := by
        refine beq_eq_false_iff_ne.mpr (fun hc => hnd.1 ?_)
        rw [hc]
        exact List.mem_map_of_mem Prod.fst hmem
      simp only [ydGet, List.find?, hne]
      exact ih hnd.2 hmem

/-- One loop iteration's effect on a yearly dict, as a function: initialize
the year if fresh, then add the model's row (`rowf m`). -/
def genStep (ncols : Nat) (rowf : Model → List Nat) (d : YDict) (m : Model) : YDict :=
  ydAdd (ydInit d m.year ncols) m.year (rowf m)

/-- The corresponding effect on the ordered list of year keys. -/
def yearStep (acc : List Int) (m : Model) : List Int :=
  if m.year ∈ acc then acc else acc ++ [m.year]

theorem mem_ydInit_self (d : YDict) (y : Int) (n : Nat) :
    y ∈ (ydInit d y n).map Prod.fst := by
  rw [ydInit_keys]
  by_cases h : y ∈ d.map Prod.fst
  · rw [if_pos h]
    exact h
  · rw [if_neg h]
    exact List.mem_append.mpr (Or.inr (List.mem_singleton.mpr rfl))

theorem genStep_keys (ncols : Nat) (rowf : Model → List Nat) (d : YDict) (m : Model) :
    (genStep ncols rowf d m).map Prod.fst = yearStep (d.map Prod.fst) m := by
  unfold genStep yearStep
  rw [ydAdd_keys, ydInit_keys]

theorem mem_yearStep (acc : List Int) (m : Model) (y : Int) :
    y ∈ yearStep acc m ↔ (y ∈ acc ∨ y = m.year) := by
  unfold yearStep
  by_cases h : m.year ∈ acc
  · rw [if_pos h]
    constructor
    · exact Or.inl
    · rintro (hy | rfl)
      · exact hy
      · exact h
  · rw [if_neg h]
    rw [List.mem_append, List.mem_singleton]

theorem yearStep_nodup (acc : List Int) (m : Model) (h : acc.Nodup) :
    (yearStep acc m).Nodup := by
  unfold yearStep
  by_cases hm : m.year ∈ acc
  · rw [if_pos hm]
    exact h
  · rw [if_neg hm]
    rw [List.nodup_append]
    exact ⟨h, List.nodup_singleton _, fun a ha hay => hm ((List.mem_singleton.mp hay) ▸ ha)⟩

theorem yearFold_mem (ms : List Model) : ∀ (acc : List Int) (y : Int),
    y ∈ ms.foldl yearStep acc ↔ (y ∈ acc ∨ ∃ m ∈ ms, m.year = y) := by
  induction ms with
  | nil =>
    intro acc y
    simp
  | cons m0 rest ih =>
    intro acc y
    rw [List.foldl_cons, ih]
    rw [mem_yearStep]
    constructor
    · rintro ((h | h) | ⟨m, hm, hy⟩)
      · exact Or.inl h
      · exact Or.inr ⟨m0, List.mem_cons_self _ _, h.symm⟩
      · exact Or.inr ⟨m, List.mem_cons_of_mem _ hm, hy⟩
    · rintro (h | ⟨m, hm, hy⟩)
      · exact Or.inl (Or.inl h)
      · rcases List.mem_cons.mp hm with rfl | hmem
        · exact Or.inl (Or.inr hy.symm)
        · exact Or.inr ⟨m, hmem, hy⟩

theorem yearFold_nodup (ms : List Model) : ∀ acc : List Int,
    acc.Nodup → (ms.foldl yearStep acc).Nodup := by
  induction ms with
  | nil =>
    intro acc h
    exact h
  | cons m0 rest ih =>
    intro acc h
    rw [List.foldl_cons]
    exact ih _ (yearStep_nodup acc m0 h)

theorem genFold_keys (ncols : Nat) (rowf : Model → List Nat) (ms : List Model) :
    ∀ acc : YDict,
    (ms.foldl (genStep ncols rowf) acc).map Prod.fst
      = ms.foldl yearStep (acc.map Prod.fst) := by
  induction ms with
  | nil =>
    intro acc
    rfl
  | cons m0 rest ih =>
    intro acc
    rw [List.foldl_cons, List.foldl_cons, ih, genStep_keys]

theorem genFold_sizes (ncols : Nat) (rowf : Model → List Nat) (ms : List Model)
    (hrow : ∀ m ∈ ms, (rowf m).length = ncols) :
    ∀ acc : YDict, (∀ e ∈ acc, e.2.length = ncols) →
    ∀ e ∈ ms.foldl (genStep ncols rowf) acc, e.2.length = ncols := by
  induction ms with
  | nil =>
    intro acc hacc e he
    exact hacc e he
  | cons m0 rest ih =>
    intro acc hacc e he
    rw [List.foldl_cons] at he
    refine ih (fun m hm => hrow m (List.mem_cons_of_mem _ hm)) _ ?_ e he
    exact ydAdd_sizes _ _ _ _ (hrow m0 (List.mem_cons_self _ _))
      (ydInit_sizes _ _ _ hacc)

theorem genFold_ydGet (ncols : Nat) (rowf : Model → List Nat) (ms : List Model) :
    ∀ (acc : YDict) (y : Int),
    (y ∈ acc.map Prod.fst ∨ ∃ m ∈ ms, m.year = y) →
    ydGet (ms.foldl (genStep ncols rowf) acc) y
      = (ms.filter (fun m => m.year == y)).foldl (fun w m => addVec w (rowf m))
          (if y ∈ acc.map Prod.fst then ydGet acc y else List.replicate ncols 0) := by
  induction ms with
  | nil =>
    intro acc y hpre
    rcases hpre with h | ⟨m, hm, _⟩
    · rw [if_pos h]
      rfl
    · cases hm
  | cons m0 rest ih =>
    intro acc y hpre
    rw [List.foldl_cons]
    by_cases hy : y = m0.year
    · subst hy
      have hmem' : m0.year ∈ (genStep ncols rowf acc m0).map Prod.fst := by
        rw [genStep_keys, mem_yearStep]
        exact Or.inr rfl
      rw [ih (genStep ncols rowf acc m0) m0.year (Or.inl hmem'), if_pos hmem']
      have hstep : ydGet (genStep ncols rowf acc m0) m0.year
          = addVec
              (if m0.year ∈ acc.map Prod.fst then ydGet acc m0.year
               else List.replicate ncols 0)
              (rowf m0) := by
        unfold genStep
        rw [ydGet_ydAdd_self _ _ _ (mem_ydInit_self acc m0.year ncols), ydGet_ydInit_self]
      rw [hstep]
      have hfilt : (m0 :: rest).filter (fun m => m.year == m0.year)
          = m0 :: rest.filter (fun m => m.year == m0.year) := by
        simp only [List.filter_cons, beq_self_eq_true, if_true]
      rw [hfilt, List.foldl_cons]
    · have hpre' : y ∈ (genStep ncols rowf acc m0).map Prod.fst ∨ ∃ m ∈ rest, m.year = y := by
        rcases hpre with h | ⟨m, hm, hmy⟩
        · refine Or.inl ?_
          rw [genStep_keys, mem_yearStep]
          exact Or.inl h
        · rcases List.mem_cons.mp hm with rfl | hmem
          · exact absurd hmy.symm hy
          · exact Or.inr ⟨m, hmem, hmy⟩
      rw [ih (genStep ncols rowf acc m0) y hpre']
      have hg : ydGet (genStep ncols rowf acc m0) y = ydGet acc y := by
        unfold genStep
        rw [ydGet_ydAdd_ne _ _ _ _ hy, ydGet_ydInit_ne _ _ _ _ hy]
      have hkeys : (y ∈ (genStep ncols rowf acc m0).map Prod.fst)
          ↔ y ∈ acc.map Prod.fst := by
        rw [genStep_keys, mem_yearStep]
        constructor
        · rintro (h | h)
          · exact h
          · exact absurd h hy
        · exact Or.inl
      have hb : (m0.year == y) = false :=
        beq_eq_false_iff_ne.mpr (fun hc => hy hc.symm)
      have hfilt : (m0 :: rest).filter (fun m => m.year == y)
          = rest.filter (fun m => m.year == y) := by
        simp only [List.filter_cons, hb, Bool.false_eq_true, if_false]
      rw [hfilt]
      by_cases hk : y ∈ acc.map Prod.fst
      · rw [if_pos (hkeys.mpr hk), if_pos hk, hg]
      · rw [if_neg (fun hc => hk (hkeys.mp hc)), if_neg hk]

/-- The loop succeeds and computes the two folds whenever every model's row
is found and has the expected width. -/
theorem stereoLoop_eq_fold (ncols : Nat) (content : List (String × List Nat))
    (ms : List Model) :
    ∀ (ow mw : YDict),
    (∀ m ∈ ms, ∃ v, fetchRow content m.name = some v ∧ v.length = ncols) →
    (∀ e ∈ ow, e.2.length = ncols) →
    stereoLoop ncols content ms ow mw
      = .ok (ms.foldl (genStep ncols (fun m => (fetchRow content m.name).getD [])) ow,
             ms.foldl (genStep ncols (fun m => indVec ((fetchRow content m.name).getD []))) mw) := by
  induction ms with
  | nil =>
    intro ow mw _ _
    rfl
  | cons m0 rest ih =>
    intro ow mw hfetch hsizes
    obtain ⟨v, hv, hvlen⟩ := hfetch m0 (List.mem_cons_self _ _)
    have hguardlen : (ydGet (ydInit ow m0.year ncols) m0.year).length = ncols := by
      rw [ydGet_ydInit_self]
      by_cases hk : m0.year ∈ ow.map Prod.fst
      · rw [if_pos hk]
        exact ydGet_length ow m0.year ncols hsizes hk
      · rw [if_neg hk]
        exact List.length_replicate ncols 0
    show (match fetchRow content m0.name with
      | none => Except.error "single positional indexer is out-of-bounds"
      | some v =>
        if v.length = (ydGet (ydInit ow m0.year ncols) m0.year).length then
          stereoLoop ncols content rest (ydAdd (ydInit ow m0.year ncols) m0.year v)
            (ydAdd (ydInit mw m0.year ncols) m0.year (indVec v))
        else
          Except.error ("Mismatch in number of columns for model " ++ m0.name)) = _
    rw [hv]
    show (if v.length = (ydGet (ydInit ow m0.year ncols) m0.year).length then
        stereoLoop ncols content rest (ydAdd (ydInit ow m0.year ncols) m0.year v)
          (ydAdd (ydInit mw m0.year ncols) m0.year (indVec v))
      else Except.error ("Mismatch in number of columns for model " ++ m0.name)) = _
    rw [if_pos (by rw [hvlen, hguardlen] : v.length = (ydGet (ydInit ow m0.year ncols) m0.year).length)]
    have hrest : ∀ m ∈ rest, ∃ v, fetchRow content m.name = some v ∧ v.length = ncols :=
      fun m hm => hfetch m (List.mem_cons_of_mem _ hm)
    have hsizes' : ∀ e ∈ ydAdd (ydInit ow m0.year ncols) m0.year v, e.2.length = ncols :=
      ydAdd_sizes _ _ _ _ hvlen (ydInit_sizes _ _ _ hsizes)
    rw [ih _ _ hrest hsizes']
    rw [List.foldl_cons, List.foldl_cons]
    simp [genStep, hv]

/-- Scenario model M1 of §8: year 2015, class stereotypes kind:2 none:1 other:0. -/
def sM1 : Model :=
  ⟨"M1", 2015, 3, 0, [("kind", 2), ("none", 1), ("other", 0)],
   [("none", 0), ("other", 0)], [], []⟩

/-- Scenario model M2 of §8: year 2015, class stereotypes kind:0 none:0 other:3. -/
def sM2 : Model :=
  ⟨"M2", 2015, 3, 0, [("kind", 0), ("none", 0), ("other", 3)],
   [("none", 0), ("other", 0)], [], []⟩

/-- Scenario model M3 of §8: year 2016, class stereotypes kind:5 none:0 other:0. -/
def sM3 : Model :=
  ⟨"M3", 2016, 5, 0, [("kind", 5), ("none", 0), ("other", 0)],
   [("none", 0), ("other", 0)], [], []⟩

theorem sortedYDict_mem (models : List Model) (ncols : Nat)
    (rowf : Model → List Nat) (y : Int) :
    y ∈ (sortByYear (models.foldl (genStep ncols rowf) [])).map Prod.fst
      ↔ ∃ m ∈ models, m.year = y := by
  have hperm : (sortByYear (models.foldl (genStep ncols rowf) [])).Perm
      (models.foldl (genStep ncols rowf) []) := List.perm_insertionSort _ _
  rw [(hperm.map Prod.fst).mem_iff, genFold_keys, yearFold_mem]
  simp

theorem sortedYDict_nodup_keys (models : List Model) (ncols : Nat)
    (rowf : Model → List Nat) :
    ((sortByYear (models.foldl (genStep ncols rowf) [])).map Prod.fst).Nodup := by
  have hperm : (sortByYear (models.foldl (genStep ncols rowf) [])).Perm
      (models.foldl (genStep ncols rowf) []) := List.perm_insertionSort _ _
  have hnd : ((models.foldl (genStep ncols rowf) []).map Prod.fst).Nodup := by
    rw [genFold_keys]
    exact yearFold_nodup models _ List.nodup_nil
  exact ((hperm.map Prod.fst).nodup_iff).mpr hnd

theorem sortedYDict_sorted (models : List Model) (ncols : Nat)
    (rowf : Model → List Nat) :
    ((sortByYear (models.foldl (genStep ncols rowf) [])).map Prod.fst).Pairwise
      (fun a b => a < b) := by
  have hsorted := List.sorted_insertionSort (fun a b : Int × List Nat => a.1 ≤ b.1)
    (models.foldl (genStep ncols rowf) [])
  have hle : ((sortByYear (models.foldl (genStep ncols rowf) [])).map Prod.fst).Pairwise
      (fun a b => a ≤ b) := List.pairwise_map.mpr hsorted
  have hnd := sortedYDict_nodup_keys models ncols rowf
  exact (hle.and hnd).imp (fun h => lt_of_le_of_ne h.1 h.2)

theorem sortedYDict_values (models : List Model) (ncols : Nat)
    (rowf : Model → List Nat) :
    ∀ e ∈ sortByYear (models.foldl (genStep ncols rowf) []),
      e.2 = (models.filter (fun m => m.year == e.1)).foldl
          (fun w m => addVec w (rowf m)) (List.replicate ncols 0) := by
  intro e he
  have hperm : (sortByYear (models.foldl (genStep ncols rowf) [])).Perm
      (models.foldl (genStep ncols rowf) []) := List.perm_insertionSort _ _
  have heF : e ∈ models.foldl (genStep ncols rowf) [] := hperm.mem_iff.mp he
  have hndF : ((models.foldl (genStep ncols rowf) []).map Prod.fst).Nodup := by
    rw [genFold_keys]
    exact yearFold_nodup models _ List.nodup_nil
  have hg := mem_entry_ydGet _ e hndF heF
  have hy : ∃ m ∈ models, m.year = e.1 := by
    have hk : e.1 ∈ (models.foldl (genStep ncols rowf) []).map Prod.fst :=
      List.mem_map_of_mem Prod.fst heF
    rw [genFold_keys] at hk
    rcases (yearFold_mem models _ e.1).mp hk with h | h
    · simp at h
    · exact h
  have hval := genFold_ydGet ncols rowf models [] e.1 (Or.inr hy)
  rw [hg, if_neg (by simp)] at hval
  exact hval

/-- C4: `calculate_and_save_stereotypes_by_year` groups models by year,
accumulates each year's occurrence-weighted row as the direct sum of every
contributing model's count vector and each year's model-weighted row as the
sum of 0/1 presence indicators, and outputs rows sorted ascending by year;
concretely, the three §8 scenario models yield ow rows 2015 ↦ [2,1,3],
2016 ↦ [5,0,0] and mw rows 2015 ↦ [1,1,1], 2016 ↦ [1,0,0]. -/
theorem C4_stereotypes_by_year (models : List Model) (proj : Model → Dict)
    (content : List (String × List Nat)) (hb : buildTable models proj = some content) :
    (∃ ow mw, stereotypes_by_year models proj = .ok (ow, mw)
      ∧ (∀ y : Int, y ∈ ow.map Prod.fst ↔ ∃ m ∈ models, m.year = y)
      ∧ (∀ y : Int, y ∈ mw.map Prod.fst ↔ ∃ m ∈ models, m.year = y)
      ∧ (∀ e ∈ ow, e.2 = owYearSum content (vocabOf models proj).length models e.1)
      ∧ (∀ e ∈ mw, e.2 = mwYearSum content (vocabOf models proj).length models e.1)
      ∧ (ow.map Prod.fst).Pairwise (fun a b => a < b)
      ∧ (mw.map Prod.fst).Pairwise (fun a b => a < b))
    ∧ stereotypes_by_year [sM1, sM2, sM3] (fun m => m.class_stereotypes)
        = .ok ([(2015, [2, 1, 3]), (2016, [5, 0, 0])],
               [(2015, [1, 1, 1]), (2016, [1, 0, 0])]) := by
  constructor
  · have hnames := buildTableAux_names (vocabOf models proj) proj models content hb
    have hsz := buildTableAux_sizes (vocabOf models proj) proj models content hb
    have hfetch : ∀ m ∈ models, ∃ v, fetchRow content m.name = some v
        ∧ v.length = (vocabOf models proj).length := by
      intro m hm
      obtain ⟨v, hv, hvmem⟩ := fetchRow_some content m.name (hnames m hm)
      obtain ⟨e, he, he2⟩ := List.mem_map.mp hvmem
      exact ⟨v, hv, by rw [← he2]; exact hsz e he⟩
    have hloop := stereoLoop_eq_fold (vocabOf models proj).length content models [] []
      hfetch (by intro e he; cases he)
    refine ⟨sortByYear (models.foldl
        (genStep (vocabOf models proj).length (fun m => (fetchRow content m.name).getD [])) []),
      sortByYear (models.foldl
        (genStep (vocabOf models proj).length
          (fun m => indVec ((fetchRow content m.name).getD []))) []),
      ?_, ?_, ?_, ?_, ?_, ?_, ?_⟩
    · simp only [stereotypes_by_year, hb, hloop]
    · intro y
      exact sortedYDict_mem models _ _ y
    · intro y
      exact sortedYDict_mem models _ _ y
    · intro e he
      exact sortedYDict_values models _ _ e he
    · intro e he
      exact sortedYDict_values models _ _ e he
    · exact sortedYDict_sorted models _ _
    · exact sortedYDict_sorted models _ _
  · rfl

theorem C4_witness :
    buildTable [sM1, sM2, sM3] (fun m => m.class_stereotypes)
      = some [("M1", [2, 1, 0]), ("M2", [0, 0, 3]), ("M3", [5, 0, 0])]
    ∧ ((∃ ow mw,
        stereotypes_by_year [sM1, sM2, sM3] (fun m => m.class_stereotypes) = .ok (ow, mw)
      ∧ (∀ y : Int, y ∈ ow.map Prod.fst ↔ ∃ m ∈ [sM1, sM2, sM3], m.year = y)
      ∧ (∀ y : Int, y ∈ mw.map Prod.fst ↔ ∃ m ∈ [sM1, sM2, sM3], m.year = y)
      ∧ (∀ e ∈ ow, e.2 = owYearSum [("M1", [2, 1, 0]), ("M2", [0, 0, 3]), ("M3", [5, 0, 0])]
          (vocabOf [sM1, sM2, sM3] (fun m => m.class_stereotypes)).length [sM1, sM2, sM3] e.1)
      ∧ (∀ e ∈ mw, e.2 = mwYearSum [("M1", [2, 1, 0]), ("M2", [0, 0, 3]), ("M3", [5, 0, 0])]
          (vocabOf [sM1, sM2, sM3] (fun m => m.class_stereotypes)).length [sM1, sM2, sM3] e.1)
      ∧ (ow.map Prod.fst).Pairwise (fun a b => a < b)
      ∧ (mw.map Prod.fst).Pairwise (fun a b => a < b))
    ∧ stereotypes_by_year [sM1, sM2, sM3] (fun m => m.class_stereotypes)
        = .ok ([(2015, [2, 1, 3]), (2016, [5, 0, 0])],
               [(2015, [1, 1, 1]), (2016, [1, 0, 0])])) :=
  ⟨rfl, C4_stereotypes_by_year [sM1, sM2, sM3] (fun m => m.class_stereotypes)
    [("M1", [2, 1, 0]), ("M2", [0, 0, 3]), ("M3", [5, 0, 0])] rfl⟩

/-- If some model's fetched row has the wrong width and every model's row is
found, the loop stops with the mismatch `ValueError` of some model. -/
theorem stereoLoop_error (ncols : Nat) (content : List (String × List Nat))
    (ms : List Model) :
    ∀ (ow mw : YDict), (∀ e ∈ ow, e.2.length = ncols) →
    (∀ m ∈ ms, ∃ v, fetchRow content m.name = some v) →
    (∃ m ∈ ms, ∃ v, fetchRow content m.name = some v ∧ v.length ≠ ncols) →
    ∃ m ∈ ms, stereoLoop ncols content ms ow mw
      = .error ("Mismatch in number of columns for model " ++ m.name) := by
  induction ms with
  | nil =>
    intro ow mw _ _ hbad
    rcases hbad with ⟨m, hm, _⟩
    cases hm
  | cons m0 rest ih =>
    intro ow mw hsizes hfound hbad
    obtain ⟨v, hv⟩ := hfound m0 (List.mem_cons_self _ _)
    have hguardlen : (ydGet (ydInit ow m0.year ncols) m0.year).length = ncols := by
      rw [ydGet_ydInit_self]
      by_cases hk : m0.year ∈ ow.map Prod.fst
      · rw [if_pos hk]
        exact ydGet_length ow m0.year ncols hsizes hk
      · rw [if_neg hk]
        exact List.length_replicate ncols 0
    by_cases hlen : v.length = ncols
    · have hbad' : ∃ m ∈ rest, ∃ w, fetchRow content m.name = some w ∧ w.length ≠ ncols := by
        rcases hbad with ⟨m, hm, w, hw, hwlen⟩
        rcases List.mem_cons.mp hm with rfl | hmem
        · rw [hv] at hw
          cases hw
          exact absurd hlen hwlen
        · exact ⟨m, hmem, w, hw, hwlen⟩
      have hfound' : ∀ m ∈ rest, ∃ v, fetchRow content m.name = some v :=
        fun m hm => hfound m (List.mem_cons_of_mem _ hm)
      have hsizes' : ∀ e ∈ ydAdd (ydInit ow m0.year ncols) m0.year v, e.2.length = ncols :=
        ydAdd_sizes _ m0.year v ncols hlen (ydInit_sizes ow m0.year ncols hsizes)
      obtain ⟨m, hm, herr⟩ := ih (ydAdd (ydInit ow m0.year ncols) m0.year v)
        (ydAdd (ydInit mw m0.year ncols) m0.year (indVec v)) hsizes' hfound' hbad'
      refine ⟨m, List.mem_cons_of_mem _ hm, ?_⟩
      show (match fetchRow content m0.name with
        | none => Except.error "single positional indexer is out-of-bounds"
        | some v =>
          if v.length = (ydGet (ydInit ow m0.year ncols) m0.year).length then
            stereoLoop ncols content rest (ydAdd (ydInit ow m0.year ncols) m0.year v)
              (ydAdd (ydInit mw m0.year ncols) m0.year (indVec v))
          else
            Except.error ("Mismatch in number of columns for model " ++ m0.name)) = _
      rw [hv]
      show (if v.length = (ydGet (ydInit ow m0.year ncols) m0.year).length then
          stereoLoop ncols content rest (ydAdd (ydInit ow m0.year ncols) m0.year v)
            (ydAdd (ydInit mw m0.year ncols) m0.year (indVec v))
        else Except.error ("Mismatch in number of columns for model " ++ m0.name)) = _
      rw [if_pos (by rw [hlen, hguardlen] :
        v.length = (ydGet (ydInit ow m0.year ncols) m0.year).length)]
      exact herr
    · refine ⟨m0, List.mem_cons_self _ _, ?_⟩
      show (match fetchRow content m0.name with
        | none => Except.error "single positional indexer is out-of-bounds"
        | some v =>
          if v.length = (ydGet (ydInit ow m0.year ncols) m0.year).length then
            stereoLoop ncols content rest (ydAdd (ydInit ow m0.year ncols) m0.year v)
              (ydAdd (ydInit mw m0.year ncols) m0.year (indVec v))
          else
            Except.error ("Mismatch in number of columns for model " ++ m0.name)) = _
      rw [hv]
      show (if v.length = (ydGet (ydInit ow m0.year ncols) m0.year).length then
          stereoLoop ncols content rest (ydAdd (ydInit ow m0.year ncols) m0.year v)
            (ydAdd (ydInit mw m0.year ncols) m0.year (indVec v))
        else Except.error ("Mismatch in number of columns for model " ++ m0.name)) = _
      rw [if_neg (by rw [hguardlen]; exact hlen)]

/-- C7: during yearly aggregation, a model whose fetched per-stereotype count
vector has a width different from the expected column count makes the loop
raise the fatal `ValueError("Mismatch in number of columns for model ...")` —
the dataset's calculation aborts, the model is not silently skipped. -/
theorem C7_width_mismatch_aborts (ncols : Nat) (content : List (String × List Nat))
    (models : List Model)
    (hfound : ∀ m ∈ models, ∃ v, fetchRow content m.name = some v)
    (hbad : ∃ m ∈ models, ∃ v, fetchRow content m.name = some v ∧ v.length ≠ ncols) :
    ∃ m ∈ models, stereoLoop ncols content models [] []
      = .error ("Mismatch in number of columns for model " ++ m.name) :=
  stereoLoop_error ncols content models [] [] (by intro e he; cases he) hfound hbad

/-- A model whose stored row is wider than the vocabulary, used to
instantiate the mismatch theorem. -/
def mis : Model :=
  ⟨"M", 2000, 0, 0, [("none", 0), ("other", 0)], [("none", 0), ("other", 0)], [], []⟩

theorem C7_witness :
    (∀ m ∈ [mis], ∃ v, fetchRow [("M", [1, 2, 3])] m.name = some v)
    ∧ (∃ m ∈ [mis], ∃ v, fetchRow [("M", [1, 2, 3])] m.name = some v ∧ v.length ≠ 2)
    ∧ ∃ m ∈ [mis], stereoLoop 2 [("M", [1, 2, 3])] [mis] [] []
        = .error ("Mismatch in number of columns for model " ++ m.name) := by
  have h1 : ∀ m ∈ [mis], ∃ v, fetchRow [("M", [1, 2, 3])] m.name = some v := by
    intro m hm
    rcases List.mem_singleton.mp hm with rfl
    exact ⟨[1, 2, 3], rfl⟩
  have h2 : ∃ m ∈ [mis], ∃ v, fetchRow [("M", [1, 2, 3])] m.name = some v ∧ v.length ≠ 2 :=
    ⟨mis, List.mem_singleton.mpr rfl, [1, 2, 3], rfl, by decide⟩
  exact ⟨h1, h2, C7_width_mismatch_aborts 2 [("M", [1, 2, 3])] [mis] h1 h2⟩

end ER2025
